import Mathlib

/-!
Verification of the smarty/injector dependency-resolution engine.

The Go source is shallowly embedded: reflect.Type values become the
inductive GoType, the generic internal/search caches become the Cache
inductive with one constructor per strategy, and the injector's mutable
state (registry, name index, scope-stack pool, verified flag, stored
verification error) becomes the Injector structure threaded through each
operation.  Recursive resolution and verification are fueled: a result of
none means the recursion depth bound was exhausted (the Go code would
still be recursing), some r is the value the Go code returns.  Go runtime
panics that the source can actually reach (nil interface conversions,
indexing an empty slice, reflect calls on non-function types, nil pointer
dereference) are modelled as explicit panicked outcomes.
-/

set_option maxHeartbeats 1600000

/-- Model of Go reflect.Type as used by the injector: struct and interface
types carry a qualified name and a method set (an abstraction of Go method
sets sufficient for assignability), pointer types carry their element
type, function types carry parameter types, return types and the variadic
flag, and basic covers every other kind (int, string, slices, ...). -/
inductive GoType where
  | structT (name : String) (methods : List String)
  | interfaceT (name : String) (methods : List String)
  | ptr (elem : GoType)
  | funcT (params : List GoType) (outs : List GoType) (variadic : Bool)
  | basic (name : String)

mutual

/-- Decidable equality for GoType, written by hand because GoType nests
lists of itself. -/
def GoType.decEq : (a b : GoType) → Decidable (a = b)
  | .structT n1 m1, .structT n2 m2 =>
    if h : n1 = n2 ∧ m1 = m2 then .isTrue (by rw [h.1, h.2])
    else .isFalse (by intro he; cases he; exact h ⟨rfl, rfl⟩)
  | .interfaceT n1 m1, .interfaceT n2 m2 =>
    if h : n1 = n2 ∧ m1 = m2 then .isTrue (by rw [h.1, h.2])
    else .isFalse (by intro he; cases he; exact h ⟨rfl, rfl⟩)
  | .ptr e1, .ptr e2 =>
    match GoType.decEq e1 e2 with
    | .isTrue h => .isTrue (by rw [h])
    | .isFalse h => .isFalse (by intro he; cases he; exact h rfl)
  | .funcT p1 o1 v1, .funcT p2 o2 v2 =>
    match GoType.decEqList p1 p2, GoType.decEqList o1 o2, Bool.decEq v1 v2 with
    | .isTrue h1, .isTrue h2, .isTrue h3 => .isTrue (by rw [h1, h2, h3])
    | .isFalse h1, _, _ => .isFalse (by intro he; cases he; exact h1 rfl)
    | _, .isFalse h2, _ => .isFalse (by intro he; cases he; exact h2 rfl)
    | _, _, .isFalse h3 => .isFalse (by intro he; cases he; exact h3 rfl)
  | .basic n1, .basic n2 =>
    if h : n1 = n2 then .isTrue (by rw [h])
    else .isFalse (by intro he; cases he; exact h rfl)
  | .structT .., .interfaceT .. => .isFalse (fun h => GoType.noConfusion h)
  | .structT .., .ptr _ => .isFalse (fun h => GoType.noConfusion h)
  | .structT .., .funcT .. => .isFalse (fun h => GoType.noConfusion h)
  | .structT .., .basic _ => .isFalse (fun h => GoType.noConfusion h)
  | .interfaceT .., .structT .. => .isFalse (fun h => GoType.noConfusion h)
  | .interfaceT .., .ptr _ => .isFalse (fun h => GoType.noConfusion h)
  | .interfaceT .., .funcT .. => .isFalse (fun h => GoType.noConfusion h)
  | .interfaceT .., .basic _ => .isFalse (fun h => GoType.noConfusion h)
  | .ptr _, .structT .. => .isFalse (fun h => GoType.noConfusion h)
  | .ptr _, .interfaceT .. => .isFalse (fun h => GoType.noConfusion h)
  | .ptr _, .funcT .. => .isFalse (fun h => GoType.noConfusion h)
  | .ptr _, .basic _ => .isFalse (fun h => GoType.noConfusion h)
  | .funcT .., .structT .. => .isFalse (fun h => GoType.noConfusion h)
  | .funcT .., .interfaceT .. => .isFalse (fun h => GoType.noConfusion h)
  | .funcT .., .ptr _ => .isFalse (fun h => GoType.noConfusion h)
  | .funcT .., .basic _ => .isFalse (fun h => GoType.noConfusion h)
  | .basic _, .structT .. => .isFalse (fun h => GoType.noConfusion h)
  | .basic _, .interfaceT .. => .isFalse (fun h => GoType.noConfusion h)
  | .basic _, .ptr _ => .isFalse (fun h => GoType.noConfusion h)
  | .basic _, .funcT .. => .isFalse (fun h => GoType.noConfusion h)

/-- Decidable equality for lists of GoType. -/
def GoType.decEqList : (as bs : List GoType) → Decidable (as = bs)
  | [], [] => .isTrue rfl
  | [], _ :: _ => .isFalse (fun h => List.noConfusion h)
  | _ :: _, [] => .isFalse (fun h => List.noConfusion h)
  | a :: as, b :: bs =>
    match GoType.decEq a b, GoType.decEqList as bs with
    | .isTrue h1, .isTrue h2 => .isTrue (by rw [h1, h2])
    | .isFalse h1, _ => .isFalse (by intro he; injection he; contradiction)
    | .isTrue _, .isFalse h2 => .isFalse (by intro he; injection he; contradiction)

end

instance : DecidableEq GoType := GoType.decEq

/-- Kinds as classified by reflect.Kind, collapsed to what the source
inspects. -/
inductive GoKind where
  | kstruct | kinterface | kpointer | kfunc | kbasic
deriving DecidableEq, Repr

def GoType.kind : GoType → GoKind
  | .structT .. => .kstruct
  | .interfaceT .. => .kinterface
  | .ptr _ => .kpointer
  | .funcT .. => .kfunc
  | .basic _ => .kbasic

/-- Parameter types of a function type (reflect NumIn/In); empty for
non-function types, which the source never queries without a Kind check
except where we model the resulting panic explicitly. -/
def GoType.params : GoType → List GoType
  | .funcT ps _ _ => ps
  | _ => []

/-- Return types of a function type (reflect NumOut/Out). -/
def GoType.outs : GoType → List GoType
  | .funcT _ os _ => os
  | _ => []

/-- reflect IsVariadic. -/
def GoType.variadic : GoType → Bool
  | .funcT _ _ v => v
  | _ => false

/-- Method set used by the assignability abstraction: pointer types expose
their element's methods. -/
def GoType.methodSet : GoType → List String
  | .structT _ ms => ms
  | .interfaceT _ ms => ms
  | .ptr e => e.methodSet
  | _ => []

/-- Abstraction of reflect AssignableTo as the injector uses it: a type is
assignable to an identical type, or to an interface type whose method set
it covers. -/
def assignableTo (t key : GoType) : Bool :=
  if t = key then true
  else
    match key with
    | .interfaceT _ ms => ms.all (fun m => t.methodSet.contains m)
    | _ => false

/-- reflect Type.String, enough to compute the short name the injector
indexes: qualified names are stored in the name fields and pointers
prepend a star, as in Go. -/
def GoType.goString : GoType → String
  | .structT n _ => n
  | .interfaceT n _ => n
  | .ptr e => "*" ++ e.goString
  | .funcT .. => "func"
  | .basic n => n

/-- strings.Split on the dot separator, written structurally over the
character list so that it evaluates inside the kernel. -/
def splitDot : List Char → List Char → List String
  | [], acc => [String.mk acc.reverse]
  | c :: rest, acc =>
    if c = '.' then String.mk acc.reverse :: splitDot rest []
    else splitDot rest (c :: acc)

/-- The last dot-separated segment of the type's string, as computed in
register via strings.Split. -/
def shortName (t : GoType) : String :=
  (splitDot (t.goString).data []).getLastD ""

/-- isStructLike from the source: struct or interface kind. -/
def isStructLike (key : GoType) : Bool :=
  key.kind = GoKind.kstruct || key.kind = GoKind.kinterface

/-- validPointerKey from the source: a pointer whose element is
struct-like. -/
def validPointerKey (key : GoType) : Bool :=
  match key with
  | .ptr e => isStructLike e
  | _ => false

/-- The error kinds declared in errors.go. -/
inductive ErrKind where
  | alreadyRegistered | badState | dependencyLoop | noReturns | notAFunction
  | notAssignable | notRegistered | notStructOrInterface | tooManyReturns
  | variadicArguments | wrongNumberOfReturns
deriving DecidableEq, Repr

/-- Go error values the injector produces, modelled structurally: sentinel
is one of the package-level error variables used as-is; wrapped is a
sentinel wrapped by fmt.Errorf with type details; counted carries the
expected/actual return counts of the WrongNumberOfReturns message; named
carries the string of a GetByName miss; the two badState forms are the two
distinguishable messages of assertValidState; chain is the arrow-joined
dependency trace appended by verify; joined models errors.Join; userError
is an error returned by a user-supplied constructor. -/
inductive GoErr where
  | sentinel (k : ErrKind)
  | wrapped (k : ErrKind) (types : List GoType)
  | counted (k : ErrKind) (expected got : Nat)
  | named (k : ErrKind) (pattern : String)
  | badStateNotVerified
  | badStateVerification (inner : GoErr)
  | chain (inner : GoErr) (trace : List GoType)
  | joinedOne (e : GoErr)
  | joinedPair (a b : GoErr)
  | userError (tag : Nat)
deriving DecidableEq

/-- errors.Join as callN uses it: Join(nil, e) yields a join wrapping one
error, Join(err, e) with err non-nil yields a join wrapping the pair. -/
def joinErr (acc : Option GoErr) (e : GoErr) : GoErr :=
  match acc with
  | none => .joinedOne e
  | some a => .joinedPair a e

/-- errors.Is against one of the sentinel error kinds: follows every
wrapping layer the model can build, mirroring the %w chains in the
source. -/
def GoErr.wraps : GoErr → ErrKind → Bool
  | .sentinel k', k => k' = k
  | .wrapped k' _, k => k' = k
  | .counted k' _ _, k => k' = k
  | .named k' _, k => k' = k
  | .badStateNotVerified, k => k = ErrKind.badState
  | .badStateVerification e, k => decide (k = ErrKind.badState) || e.wraps k
  | .chain e _, k => e.wraps k
  | .joinedOne e, k => e.wraps k
  | .joinedPair a b, k => a.wraps k || b.wraps k
  | .userError _, _ => false

/-- Lifecycle from internal/contracts. -/
inductive Lifecycle where
  | transient | scope | singleton
deriving DecidableEq, Repr

/-- A runtime value as the model observes it: nilAny is the nil interface
value (returned alongside errors), obj is an instance produced by invoking
the constructor registered for key; serial is a model-level freshness tag,
standing in for heap identity, incremented on every constructor
invocation. -/
inductive GoVal where
  | nilAny
  | obj (key : GoType) (serial : Nat)
deriving DecidableEq

/-- ScopedInstance from internal/contracts. -/
structure ScopedInstance where
  type : GoType
  value : GoVal
deriving DecidableEq

/-- ObjectInfo from internal/contracts.  ConstructorValue is abstracted to
its observable behavior: every invocation yields a fresh tagged instance,
and ctorErr is the error the constructor returns on each invocation when
the registration declared an error return (none for constructors that
never fail).  hasCtorFunction models whether the memoized
ConstructorFunction closure has been installed; since that closure always
resolves the parameters of ctorType and invokes the constructor, its
behavior is recomputed from the record rather than stored. -/
structure ObjectInfo where
  ctorType : GoType
  lifecycle : Lifecycle
  singleton : Option GoVal := none
  hasCtorFunction : Bool := false
  returnsError : Bool := false
  ctorErr : Option GoErr := none
deriving DecidableEq

section SearchModule

variable {κ ν : Type} [DecidableEq κ]

/-- bubbleNode from internal/search: key, value and the access counter. -/
structure BubbleNode (κ ν : Type) where
  key : κ
  value : ν
  accesses : Nat
deriving DecidableEq

/-- First matching index and node, mirroring the range loop of
BubbleList.Find. -/
def bubbleFindIdx : List (BubbleNode κ ν) → κ → Nat → Option (Nat × BubbleNode κ ν)
  | [], _, _ => none
  | n :: rest, key, i => if n.key = key then some (i, n) else bubbleFindIdx rest key (i + 1)

/-- Swap two positions of a list, used for the bubble swap statement. -/
def listSwap (l : List α) (i j : Nat) : List α :=
  match l[i]?, l[j]? with
  | some a, some b => (l.set i b).set j a
  | _, _ => l

/-- BubbleList.reorder.  The Go method receives a pointer to the loop-copy
of the matched node, so the increment below touches only that copy; the
comparison then reads the stored, never-incremented entries.  The model
reproduces this exactly: the incremented copy is dead. -/
def bubbleReorder (entries : List (BubbleNode κ ν)) (index : Nat)
    (entry : BubbleNode κ ν) : List (BubbleNode κ ν) :=
  let _incrementedCopy := { entry with accesses := entry.accesses + 1 }
  if index > 0 then
    match entries[index]?, entries[index - 1]? with
    | some cur, some prev =>
      if cur.accesses > prev.accesses then listSwap entries (index - 1) index else entries
    | _, _ => entries
  else entries

/-- BubbleList.Find: scan for the first match, then optionally run the
reorder step; returns the found value and the updated entry list. -/
def bubbleFind (entries : List (BubbleNode κ ν)) (key : κ) (reorder : Bool) :
    Option ν × List (BubbleNode κ ν) :=
  match bubbleFindIdx entries key 0 with
  | none => (none, entries)
  | some (i, entry) =>
    (some entry.value, if reorder then bubbleReorder entries i entry else entries)

/-- First matching index and value for the PriorityList scan. -/
def priorityFindIdx : List (κ × ν) → κ → Nat → Option (Nat × ν)
  | [], _, _ => none
  | (k, v) :: rest, key, i =>
    if k = key then some (i, v) else priorityFindIdx rest key (i + 1)

/-- PriorityList.Find: scan from the head; on a reordering match with a
non-nil previous node, unlink the node and relink it at the head. -/
def priorityFind (entries : List (κ × ν)) (key : κ) (reorder : Bool) :
    Option ν × List (κ × ν) :=
  match priorityFindIdx entries key 0 with
  | none => (none, entries)
  | some (i, v) =>
    (some v,
      if reorder && i > 0 then
        match entries[i]? with
        | some node => node :: entries.eraseIdx i
        | none => entries
      else entries)

/-- Go map insert: overwrite in place when present, append otherwise. -/
def mapAdd (entries : List (κ × ν)) (key : κ) (value : ν) : List (κ × ν) :=
  if entries.any (fun p => p.1 = key) then
    entries.map (fun p => if p.1 = key then (key, value) else p)
  else entries ++ [(key, value)]

/-- Go map lookup (first and only match under the map invariant). -/
def assocFind : List (κ × ν) → κ → Option ν
  | [], _ => none
  | (k, v) :: rest, key => if k = key then some v else assocFind rest key

/-- The search.Cache implementations selected by generateCache: the Go
map, the access-frequency bubble list, and the move-to-front priority
list. -/
inductive Cache (κ ν : Type) where
  | mapCache (entries : List (κ × ν))
  | bubbleList (entries : List (BubbleNode κ ν))
  | priorityList (entries : List (κ × ν))
deriving DecidableEq

/-- Cache.Add: map overwrite-or-append, bubble append with a zero access
counter, priority cons at the head. -/
def Cache.add : Cache κ ν → κ → ν → Cache κ ν
  | .mapCache es, k, v => .mapCache (mapAdd es k v)
  | .bubbleList es, k, v => .bubbleList (es ++ [⟨k, v, 0⟩])
  | .priorityList es, k, v => .priorityList ((k, v) :: es)

/-- Cache.Find with the reorder flag; returns the found value and the
possibly reordered cache. -/
def Cache.find : Cache κ ν → κ → Bool → Option ν × Cache κ ν
  | .mapCache es, k, _ => (assocFind es k, .mapCache es)
  | .bubbleList es, k, r =>
    let (v, es') := bubbleFind es k r
    (v, .bubbleList es')
  | .priorityList es, k, r =>
    let (v, es') := priorityFind es k r
    (v, .priorityList es')

/-- Cache.Find with NoReorder never changes the cache, so verification
reads it through this pure projection. -/
def findNR (c : Cache κ ν) (k : κ) : Option ν := (c.find k false).1

/-- Cache.All as the sequence of key-value pairs each strategy yields:
the map model iterates its entries in storage order (Go leaves the order
unspecified), the bubble list its slice, the priority list from the
head. -/
def Cache.all : Cache κ ν → List (κ × ν)
  | .mapCache es => es
  | .bubbleList es => es.map (fun n => (n.key, n.value))
  | .priorityList es => es

/-- In-place update of the stored value for a key, the model counterpart
of mutating through the shared ObjectInfo pointer Find returned. -/
def Cache.updateValue : Cache κ ν → κ → (ν → ν) → Cache κ ν
  | .mapCache es, k, f => .mapCache (es.map (fun p => if p.1 = k then (p.1, f p.2) else p))
  | .bubbleList es, k, f =>
    .bubbleList (es.map (fun n => if n.key = k then { n with value := f n.value } else n))
  | .priorityList es, k, f => .priorityList (es.map (fun p => if p.1 = k then (p.1, f p.2) else p))

end SearchModule

/-- CacheStrategy from strategy.go. -/
inductive CacheStrategy where
  | Map | BubbleList | PriorityList
deriving DecidableEq, Repr

/-- generateCache: the empty cache of the chosen strategy. -/
def generateCache (s : CacheStrategy) : Cache GoType ObjectInfo :=
  match s with
  | .Map => .mapCache []
  | .BubbleList => .bubbleList []
  | .PriorityList => .priorityList []

/-- StackPool.CheckOut: take the last pooled stack, or a fresh empty one
when the pool is empty. -/
def checkOut (pooled : List (List ScopedInstance)) :
    List ScopedInstance × List (List ScopedInstance) :=
  match pooled with
  | [] => ([], [])
  | _ => (pooled.getLastD [], pooled.dropLast)

/-- StackPool.CheckIn: append the stack back onto the pool. -/
def checkIn (pooled : List (List ScopedInstance)) (value : List ScopedInstance) :
    List (List ScopedInstance) :=
  pooled ++ [value]

/-- The Injector state: the cache-backed registry, the name index, the
scope-stack pool, the captured verification error and the verified flag.
nextSerial is the model's freshness counter backing GoVal.obj tags. -/
structure Injector where
  library : Cache GoType ObjectInfo
  nameToKey : List (String × GoType)
  scopePool : List (List ScopedInstance)
  verificationError : Option GoErr := none
  verified : Bool := false
  nextSerial : Nat := 0
deriving DecidableEq

/-- Modelled from the spec: the external name index (the smarty/tries
package) is not part of this repository.  Per the spec, registration
emits (short-name, key) pairs and a lookup returns a single matching key
or a not-found signal; we model it as an association list with
first-match lookup. -/
def trieFind : List (String × GoType) → String → Option GoType
  | [], _ => none
  | (n, k) :: rest, name => if n = name then some k else trieFind rest name

/-- register from the source, checks in source order; note that the
verified flag is cleared before any validation and that the
already-registered probe runs with the Reorder flag. -/
def register (target : Injector) (key : GoType) (info : ObjectInfo) :
    Option GoErr × Injector :=
  let target := { target with verified := false }
  if ¬(isStructLike key || validPointerKey key) then
    (some (.wrapped .notStructOrInterface [key]), target)
  else if info.ctorType.kind ≠ GoKind.kfunc then
    (some (.wrapped .notAFunction [key]), target)
  else if info.returnsError && info.ctorType.outs.length ≠ 2 then
    (some (.wrapped .wrongNumberOfReturns [key]), target)
  else if ¬info.returnsError && info.ctorType.outs.length > 1 then
    (some (.wrapped .tooManyReturns [key]), target)
  else if ¬info.returnsError && info.ctorType.outs.length = 0 then
    (some (.wrapped .noReturns [key]), target)
  else if ¬assignableTo (info.ctorType.outs.headD (GoType.basic "")) key then
    (some (.wrapped .notAssignable [key]), target)
  else if info.ctorType.variadic then
    (some (.wrapped .variadicArguments [key]), target)
  else
    match target.library.find key true with
    | (some _, lib') => (some (.wrapped .alreadyRegistered [key]), { target with library := lib' })
    | (none, lib') =>
      (none,
        { target with
          nameToKey := target.nameToKey ++ [(shortName key, key)],
          library := lib'.add key info })

/-- RegisterTransient and friends: construct the ObjectInfo exactly as the
wrappers do and delegate to register.  cerr carries the behavior of the
user constructor for the -Error variants. -/
def registerTransient (t : Injector) (key ctor : GoType) : Option GoErr × Injector :=
  register t key { ctorType := ctor, lifecycle := .transient }

def registerTransientError (t : Injector) (key ctor : GoType) (cerr : Option GoErr) :
    Option GoErr × Injector :=
  register t key { ctorType := ctor, lifecycle := .transient, returnsError := true, ctorErr := cerr }

def registerScope (t : Injector) (key ctor : GoType) : Option GoErr × Injector :=
  register t key { ctorType := ctor, lifecycle := .scope }

def registerScopeError (t : Injector) (key ctor : GoType) (cerr : Option GoErr) :
    Option GoErr × Injector :=
  register t key { ctorType := ctor, lifecycle := .scope, returnsError := true, ctorErr := cerr }

def registerSingleton (t : Injector) (key ctor : GoType) : Option GoErr × Injector :=
  register t key { ctorType := ctor, lifecycle := .singleton }

def registerSingletonError (t : Injector) (key ctor : GoType) (cerr : Option GoErr) :
    Option GoErr × Injector :=
  register t key { ctorType := ctor, lifecycle := .singleton, returnsError := true, ctorErr := cerr }

/-- The key type *Injector under which New self-registers. -/
def injectorKey : GoType := .ptr (.structT "injector.Injector" [])

/-- New: empty state for the chosen strategy, then the self-registration
of *Injector as a singleton with a zero-parameter constructor. -/
def New (strategy : CacheStrategy) : Injector :=
  let di : Injector :=
    { library := generateCache strategy, nameToKey := [], scopePool := [] }
  (registerSingleton di injectorKey (.funcT [] [injectorKey] false)).2

/-- assertValidState: distinguishes the captured-verification-error
message from the plain never-verified message. -/
def assertValidState (injector : Injector) : Option GoErr :=
  if injector.verified then none
  else
    match injector.verificationError with
    | some e => some (.badStateVerification e)
    | none => some .badStateNotVerified

/-- Outcome of Verify and of verifying one root key: an ordinary return
(nil or an error) or a modelled Go runtime panic. -/
inductive VerifyRes where
  | ret (err : Option GoErr)
  | panicked
deriving DecidableEq

/-- The parameter loop of verifyStack, with the recursive descent passed
in as vs (verifyStack at the remaining fuel): look every parameter type up
with NoReorder, fail with NotRegistered when absent, fail with
DependencyLoop when its constructor signature already appears anywhere on
the stack, and otherwise push the signature, recurse, and continue the
loop with the stack the recursion left behind. -/
def verifyParams (injector : Injector)
    (vs : List GoType → Option (Option GoErr × List GoType)) :
    List GoType → List GoType → Option (Option GoErr × List GoType)
  | [], stack => some (none, stack)
  | p :: rest, stack =>
    match findNR injector.library p with
    | none => some (some (.wrapped .notRegistered [p]), stack)
    | some pinfo =>
      if pinfo.ctorType ∈ stack then some (some (.sentinel .dependencyLoop), stack)
      else
        match vs (stack ++ [pinfo.ctorType]) with
        | none => none
        | some (some e, st) => some (some e, st)
        | some (none, st) => verifyParams injector vs rest st

/-- verifyStack from the source: examine the focus (last stack entry),
walk its constructor parameters via verifyParams, and pop the focus on
success.  The stack is returned because the source mutates it through a
pointer and verify reads it afterwards to build the error trace.  Fuel
bounds the recursion depth; none means the bound was hit. -/
def verifyStack (injector : Injector) :
    Nat → List GoType → Option (Option GoErr × List GoType)
  | 0, _ => none
  | fuel + 1, stack =>
    let focus := stack.getLastD (GoType.basic "")
    match verifyParams injector (verifyStack injector fuel) focus.params stack with
    | none => none
    | some (some e, st) => some (some e, st)
    | some (none, st) => some (none, st.dropLast)

/-- verify from the source: look the root key up (the discarded found
flag means a missing key would dereference a nil ObjectInfo pointer,
modelled as panicked), seed the stack with the root's constructor
signature, and wrap any error with the accumulated trace. -/
def verifyKey (injector : Injector) (key : GoType) (fuel : Nat) : Option VerifyRes :=
  match findNR injector.library key with
  | none => some .panicked
  | some info =>
    match verifyStack injector fuel [info.ctorType] with
    | none => none
    | some (none, _) => some (.ret none)
    | some (some e, st) => some (.ret (some (.chain e st)))

/-- Whether this strategy's All iterator holds, for the whole iteration,
the same non-reentrant mutex its Find takes.  PriorityList.All locks the
embedded sync.Mutex and only unlocks when the iteration finishes, and
PriorityList.Find unconditionally locks that same mutex; Map has no lock
and BubbleList.All takes none, so only the priority list nests Find
inside a held lock. -/
def Cache.findLocksDuringAll {κ ν : Type} : Cache κ ν → Bool
  | .priorityList _ => true
  | _ => false

/-- The iteration of Verify over the keys yielded by the registry's All
sequence: the first failing root stores its error and stops; full success
marks the injector verified.  Each loop body runs verify — and so Find —
while the All iterator is still live: when the strategy's All holds the
non-reentrant mutex Find locks (the priority list), the first body blocks
forever on the nested Lock, modelled as divergence (none). -/
def verifyAll (injector : Injector) : List GoType → Nat → Option (VerifyRes × Injector)
  | [], _ => some (.ret none, { injector with verified := true })
  | k :: rest, fuel =>
    if injector.library.findLocksDuringAll then none
    else
      match verifyKey injector k fuel with
      | none => none
      | some .panicked => some (.panicked, injector)
      | some (.ret (some e)) =>
        some (.ret (some e), { injector with verificationError := some e })
      | some (.ret none) => verifyAll injector rest fuel

/-- Verify from the source: reset the verified flag and the stored error,
run the no-op Prepare, then verify every registered key. -/
def Verify (injector : Injector) (fuel : Nat) : Option (VerifyRes × Injector) :=
  let injector := { injector with verified := false, verificationError := none }
  verifyAll injector ((injector.library.all).map Prod.fst) fuel

/-- The scoped-instance scan at the top of get's Scope branch: first
match in the borrowed scope stack. -/
def scopedLookup : List ScopedInstance → GoType → Option GoVal
  | [], _ => none
  | item :: rest, key => if item.type = key then some item.value else scopedLookup rest key

/-- The parameter loop of the memoized constructor closure, with the
recursive resolution passed in as getF: resolve every parameter via get,
aborting with the first error. -/
def resolveParams (getF : Injector → GoType → List ScopedInstance →
      Option ((GoVal × Option GoErr) × Injector × List ScopedInstance)) :
    Injector → List GoType → List ScopedInstance →
      Option ((List GoVal ⊕ GoErr) × Injector × List ScopedInstance)
  | injector, [], scopedList => some (.inl [], injector, scopedList)
  | injector, p :: rest, scopedList =>
    match getF injector p scopedList with
    | none => none
    | some ((_, some e), inj1, sc1) => some (.inr e, inj1, sc1)
    | some ((v, none), inj1, sc1) =>
      match resolveParams getF inj1 rest sc1 with
      | none => none
      | some (.inr e, inj2, sc2) => some (.inr e, inj2, sc2)
      | some (.inl vs, inj2, sc2) => some (.inl (v :: vs), inj2, sc2)

/-- The memoized ConstructorFunction closure: resolve each parameter of
the record's constructor type (returning nil plus the error on the first
failure), then invoke the constructor.  Invocation produces a fresh
instance tagged with the serial counter; for an -Error registration the
declared first return value accompanies the constructor's error. -/
def invokeCtor (getF : Injector → GoType → List ScopedInstance →
      Option ((GoVal × Option GoErr) × Injector × List ScopedInstance))
    (injector : Injector) (key : GoType) (info : ObjectInfo)
    (scopedList : List ScopedInstance) :
    Option ((GoVal × Option GoErr) × Injector × List ScopedInstance) :=
  match resolveParams getF injector info.ctorType.params scopedList with
  | none => none
  | some (.inr e, inj1, sc1) => some ((.nilAny, some e), inj1, sc1)
  | some (.inl _, inj1, sc1) =>
    let obj := GoVal.obj key inj1.nextSerial
    let inj2 := { inj1 with nextSerial := inj1.nextSerial + 1 }
    if info.returnsError then
      match info.ctorErr with
      | some e => some ((obj, some e), inj2, sc1)
      | none => some ((obj, none), inj2, sc1)
    else some ((obj, none), inj2, sc1)

/-- The code below the lifecycle switch in get: memoize the invoker on
the stored record, invoke it, and on success append to the scoped list
or populate the singleton slot according to the lifecycle. -/
def getBuild (getF : Injector → GoType → List ScopedInstance →
      Option ((GoVal × Option GoErr) × Injector × List ScopedInstance))
    (injector : Injector) (key : GoType) (info : ObjectInfo)
    (scopedList : List ScopedInstance) :
    Option ((GoVal × Option GoErr) × Injector × List ScopedInstance) :=
  match invokeCtor getF
      { injector with
        library := injector.library.updateValue key
          (fun i => { i with hasCtorFunction := true }) }
      key info scopedList with
  | none => none
  | some ((_, some e), inj3, sc3) => some ((.nilAny, some e), inj3, sc3)
  | some ((obj, none), inj3, sc3) =>
    match info.lifecycle with
    | .scope => some ((obj, none), inj3, sc3 ++ [⟨key, obj⟩])
    | .singleton =>
      some ((obj, none),
        { inj3 with
          library := inj3.library.updateValue key (fun i => { i with singleton := some obj }) },
        sc3)
    | .transient => some ((obj, none), inj3, sc3)

/-- get from the source.  Returns the pair the Go function returns (value
and error; the value can be the nil interface), together with the updated
injector and scoped list.  The initial Find runs with Reorder.  Fuel
bounds the recursion depth of parameter resolution; each nested get runs
at one less fuel. -/
def Injector.get (injector : Injector) (key : GoType) (scopedList : List ScopedInstance) :
    Nat → Option ((GoVal × Option GoErr) × Injector × List ScopedInstance)
  | 0 => none
  | fuel + 1 =>
    match injector.library.find key true with
    | (none, lib1) =>
      some ((.nilAny, some (.wrapped .notRegistered [key])),
        { injector with library := lib1 }, scopedList)
    | (some info, lib1) =>
      match info.lifecycle with
      | .scope =>
        match scopedLookup scopedList key with
        | some v => some ((v, none), { injector with library := lib1 }, scopedList)
        | none =>
          if info.hasCtorFunction then
            match invokeCtor (fun i k s => Injector.get i k s fuel)
                { injector with library := lib1 } key info scopedList with
            | none => none
            | some ((_, some e), inj2, sc2) => some ((.nilAny, some e), inj2, sc2)
            | some ((obj, none), inj2, sc2) =>
              some ((obj, none), inj2, sc2 ++ [⟨key, obj⟩])
          else
            getBuild (fun i k s => Injector.get i k s fuel)
              { injector with library := lib1 } key info scopedList
      | .singleton =>
        match info.singleton with
        | some v => some ((v, none), { injector with library := lib1 }, scopedList)
        | none =>
          getBuild (fun i k s => Injector.get i k s fuel)
            { injector with library := lib1 } key info scopedList
      | .transient =>
        if info.hasCtorFunction then
          match invokeCtor (fun i k s => Injector.get i k s fuel)
              { injector with library := lib1 } key info scopedList with
          | none => none
          | some (res, inj2, sc2) => some (res, inj2, sc2)
        else
          getBuild (fun i k s => Injector.get i k s fuel)
            { injector with library := lib1 } key info scopedList

/-- Injector.Get: check the verified state, borrow a scope stack from the
pool, resolve, and return the borrowed stack to the pool.  The deferred
CheckIn captures the checked-out slice value at defer time, so the stack
that returns to the pool is the one that was checked out, not the grown
one. -/
def Injector.Get (injector : Injector) (key : GoType) (fuel : Nat) :
    Option ((GoVal × Option GoErr) × Injector) :=
  match assertValidState injector with
  | some e => some ((.nilAny, some e), injector)
  | none =>
    let (stack, pool1) := checkOut injector.scopePool
    let inj1 := { injector with scopePool := pool1 }
    match Injector.get inj1 key stack fuel with
    | none => none
    | some ((_, some e), inj2, _) =>
      some ((.nilAny, some e), { inj2 with scopePool := checkIn inj2.scopePool stack })
    | some ((v, none), inj2, _) =>
      some ((v, none), { inj2 with scopePool := checkIn inj2.scopePool stack })

/-- Injector.GetByName: consult the name index first; an unindexed name
fails with NotRegistered before any verified-state check, an indexed one
delegates to Get. -/
def Injector.GetByName (injector : Injector) (name : String) (fuel : Nat) :
    Option ((GoVal × Option GoErr) × Injector) :=
  match trieFind injector.nameToKey name with
  | none => some ((.nilAny, some (.named .notRegistered name)), injector)
  | some key => injector.Get key fuel

/-- Result of callN: the returned values, an ordinary error, or a Go
runtime panic (the nil-interface conversion on a failed parameter). -/
inductive CallNRes where
  | success (returns : List GoVal)
  | failure (e : GoErr)
  | panicked
deriving DecidableEq

/-- Result of the parameter loop inside callN. -/
inductive CallLoopRes where
  | panicked
  | done (errAcc : Option GoErr)
deriving DecidableEq

/-- The parameter loop of callN: resolve each parameter with the shared
scope stack; a resolution error is folded in with errors.Join before the
value is converted with rawValue.(reflect.Value), which panics when the
value is the nil interface. -/
def callNLoop (injector : Injector) (ps : List GoType) (scopedList : List ScopedInstance)
    (errAcc : Option GoErr) (fuel : Nat) :
    Option (CallLoopRes × Injector × List ScopedInstance)
  := match ps with
  | [] => some (.done errAcc, injector, scopedList)
  | p :: rest =>
    match Injector.get injector p scopedList fuel with
    | none => none
    | some ((raw, e), inj1, sc1) =>
      let errAcc1 := match e with
        | none => errAcc
        | some e0 => some (joinErr errAcc e0)
      match raw with
      | .nilAny => some (.panicked, inj1, sc1)
      | .obj _ _ => callNLoop inj1 rest sc1 errAcc1 fuel

/-- callN from the source: shape checks in source order (function kind,
then return count against the expected count, then variadicity), then the
parameter loop over one checked-out scope stack, then the function call
(which runs even when parameter errors were accumulated), then the error
or the converted return values.  The deferred CheckIn runs on every exit
path, including panic unwinding, with the stack value captured at
checkout.  The Bool records whether the supplied function was invoked. -/
def callN (injector : Injector) (function : GoType) (expectedReturnCount : Nat)
    (fuel : Nat) : Option (CallNRes × Bool × Injector) :=
  if function.kind ≠ GoKind.kfunc then
    some (.failure (.wrapped .notAFunction [function]), false, injector)
  else if function.outs.length ≠ expectedReturnCount then
    some (.failure (.counted .wrongNumberOfReturns expectedReturnCount function.outs.length),
      false, injector)
  else if function.variadic then
    some (.failure (.sentinel .variadicArguments), false, injector)
  else
    let (stack, pool1) := checkOut injector.scopePool
    let inj1 := { injector with scopePool := pool1 }
    match callNLoop inj1 function.params stack none fuel with
    | none => none
    | some (.panicked, inj2, _) =>
      some (.panicked, false, { inj2 with scopePool := checkIn inj2.scopePool stack })
    | some (.done errAcc, inj2, _) =>
      let inj3 := { inj2 with scopePool := checkIn inj2.scopePool stack }
      match errAcc with
      | some e => some (.failure e, true, inj3)
      | none =>
        some (.success (function.outs.map (fun _ => GoVal.nilAny)), true, inj3)

/-- Result of the Call wrapper: the error it returns, or a propagated
panic. -/
inductive CallRes where
  | ret (err : Option GoErr)
  | panicked
deriving DecidableEq

/-- Call: callN with expected return count zero; only the error is
returned. -/
def Call (injector : Injector) (function : GoType) (fuel : Nat) :
    Option (CallRes × Injector) :=
  match callN injector function 0 fuel with
  | none => none
  | some (.success _, _, inj1) => some (.ret none, inj1)
  | some (.failure e, _, inj1) => some (.ret (some e), inj1)
  | some (.panicked, _, inj1) => some (.panicked, inj1)

/-- Result of the Call1..Call4 wrappers: the first return value (their
error return is nil on this only non-panicking path), or a panic — every
callN error leaves the returned slice nil, and indexing it panics before
the error can be returned. -/
inductive Call1Res where
  | ok (r1 : GoVal)
  | panicked
deriving DecidableEq

/-- Call1 from the source: returns[0] is read before err is returned, so
a nil slice (present exactly when callN returned an error) panics. -/
def Call1 (injector : Injector) (function : GoType) (fuel : Nat) :
    Option (Call1Res × Injector) :=
  match callN injector function 1 fuel with
  | none => none
  | some (.success rets, _, inj1) =>
    match rets.head? with
    | some r => some (.ok r, inj1)
    | none => some (.panicked, inj1)
  | some (.failure _, _, inj1) => some (.panicked, inj1)
  | some (.panicked, _, inj1) => some (.panicked, inj1)

/-- CallN from the source: the expected count is read with
reflect.TypeOf(function).NumOut() before callN runs, which panics on a
non-function value. -/
def CallN (injector : Injector) (function : GoType) (fuel : Nat) :
    Option (CallNRes × Injector) :=
  if function.kind ≠ GoKind.kfunc then some (.panicked, injector)
  else
    match callN injector function function.outs.length fuel with
    | none => none
    | some (r, _, inj1) => some (r, inj1)

/-! ### Shared lemmas about Cache.find -/

/-- The value component of Find is independent of the reorder flag, for
all three strategies. -/
theorem Cache.find_fst {κ ν : Type} [DecidableEq κ] (c : Cache κ ν) (k : κ) (b : Bool) :
    (c.find k b).1 = findNR c k := by
  cases c with
  | mapCache es => rfl
  | bubbleList es =>
    simp only [Cache.find, findNR, bubbleFind]
    cases bubbleFindIdx es k 0 <;> rfl
  | priorityList es =>
    simp only [Cache.find, findNR, priorityFind]
    cases priorityFindIdx es k 0 <;> rfl

/-- register never touches the stored verification error and always
leaves the verified flag cleared, whatever the outcome. -/
theorem register_state (target : Injector) (key : GoType) (info : ObjectInfo) :
    (register target key info).2.verified = false ∧
    (register target key info).2.verificationError = target.verificationError := by
  unfold register
  repeat' split
  any_goals simp
  rcases htf : target.library.find key true with ⟨fv, lib2⟩
  cases fv <;> simp

/-! ### Claim C1 -/

/-- Concrete types used by counterexamples and witnesses. -/
def tU : GoType := .structT "test.Unregistered" []

/-- Claim C1, counterexample: the claim says every Call-family invocation
on an unverified injector fails with BadState, but callN performs no
verified-state check: on a freshly built (hence unverified) injector,
Call with a zero-parameter, zero-return function succeeds with a nil
error. -/
theorem c1_counterexample :
    (New .Map).verified = false ∧
    (Call (New .Map) (GoType.funcT [] [] false) 5).map Prod.fst = some (.ret none) := by
  decide

/-- Claim C1 (amended): on an injector whose Verify has not completed
successfully, Get by key fails with a BadState error whose form
distinguishes the never-verified case from the captured-verification-
error case, returns the injector unchanged (no constructor is invoked),
and GetByName behaves exactly like Get whenever the requested name is
indexed; the Call family performs no verified-state check (and GetByName
with an unindexed name fails with NotRegistered before the state
check). -/
theorem c1_amended (inj : Injector) (key : GoType) (name : String) (fuel : Nat)
    (hunv : inj.verified = false) :
    (inj.verificationError = none →
      inj.Get key fuel = some ((.nilAny, some .badStateNotVerified), inj)) ∧
    (∀ e, inj.verificationError = some e →
      inj.Get key fuel = some ((.nilAny, some (.badStateVerification e)), inj)) ∧
    (∀ k, trieFind inj.nameToKey name = some k →
      inj.GetByName name fuel = inj.Get k fuel) ∧
    (trieFind inj.nameToKey name = none →
      inj.GetByName name fuel = some ((.nilAny, some (.named .notRegistered name)), inj)) := by
  refine ⟨?_, ?_, ?_, ?_⟩
  · intro h; simp [Injector.Get, assertValidState, hunv, h]
  · intro e h; simp [Injector.Get, assertValidState, hunv, h]
  · intro k h; simp [Injector.GetByName, h]
  · intro h; simp [Injector.GetByName, h]

/-- Witness for c1_amended at a fresh injector. -/
theorem c1_amended_witness :
    (New .Map).verified = false ∧
    (New .Map).Get injectorKey 5 = some ((.nilAny, some .badStateNotVerified), New .Map) ∧
    (New .Map).GetByName "Injector" 5 = (New .Map).Get injectorKey 5 :=
  ⟨by decide,
   (c1_amended (New .Map) injectorKey "Injector" 5 (by decide)).1 (by decide),
   (c1_amended (New .Map) injectorKey "Injector" 5 (by decide)).2.2.1 injectorKey (by decide)⟩

/-! ### Claim C2 -/

/-- A verified injector with an empty user registry. -/
def c2Injector : Injector :=
  match Verify (New .Map) 5 with
  | some (_, i) => i
  | none => New .Map

/-- A type registered with RegisterTransientError whose constructor
always fails. -/
def c2T : GoType := .structT "test.Erroring" []

/-- The error interface type as a constructor's second return. -/
def errType : GoType := .interfaceT "error" []

/-- The injector of the second C2 scenario after one Get has memoized the
erroring transient's invoker. -/
def c2InjectorMemoized : Injector :=
  let s1 := (registerTransientError (New .Map) c2T
    (.funcT [] [c2T, errType] false) (some (.userError 7))).2
  let s2 := match Verify s1 5 with | some (_, i) => i | none => s1
  match s2.Get c2T 9 with | some (_, i) => i | none => s2

/-- Claim C2, evaluation at the failing inputs: on a verified injector,
callN on a function whose parameter type is unregistered panics on the
nil interface conversion instead of returning the NotRegistered error
(first conjunct block), and on a function whose parameter is a transient
-Error registration with a memoized invoker, the resolution error is
joined but the function is invoked anyway before the error is returned
(second block) — both contradict the claim that the resolution errors are
returned and the function is never invoked. -/
theorem c2_callN_panics_or_invokes :
    c2Injector.verified = true ∧
    findNR c2Injector.library tU = none ∧
    (callN c2Injector (GoType.funcT [tU] [] false) 0 9).map (fun r => (r.1, r.2.1)) =
      some (.panicked, false) ∧
    c2InjectorMemoized.verified = true ∧
    (callN c2InjectorMemoized (GoType.funcT [c2T] [] false) 0 9).map (fun r => (r.1, r.2.1)) =
      some (.failure (.joinedOne (.userError 7)), true) := by
  decide

/-! ### Claim C6 -/

/-- Claim C6, counterexample: with *Injector already registered (by New),
a second registration of the same key with a non-function constructor
fails with NotAFunction, not AlreadyRegistered — the shape checks run
before the already-registered probe. -/
theorem c6_counterexample :
    (findNR (New .Map).library injectorKey).isSome = true ∧
    (register (New .Map) injectorKey
      { ctorType := GoType.basic "int", lifecycle := .transient }).1 =
      some (.wrapped .notAFunction [injectorKey]) ∧
    GoErr.wraps (.wrapped .notAFunction [injectorKey]) .alreadyRegistered = false := by
  decide

/-- Claim C6 (amended): a second registration of an already-present key
fails with AlreadyRegistered regardless of the lifecycle chosen, provided
the second constructor passes the shape checks (function, correct return
count for its error flag, assignable first return, not variadic); a
second registration whose constructor fails a shape check reports that
shape error instead, because register runs the shape checks first. -/
theorem c6_amended (inj : Injector) (key : GoType) (info : ObjectInfo)
    (hpresent : (findNR inj.library key).isSome = true)
    (hkey : (isStructLike key || validPointerKey key) = true)
    (hfn : info.ctorType.kind = GoKind.kfunc)
    (houtsE : info.returnsError = true → info.ctorType.outs.length = 2)
    (houts : info.returnsError = false → info.ctorType.outs.length = 1)
    (hassign : assignableTo (info.ctorType.outs.headD (GoType.basic "")) key = true)
    (hvar : info.ctorType.variadic = false) :
    (register inj key info).1 = some (.wrapped .alreadyRegistered [key]) := by
  have hsome : (inj.library.find key true).1.isSome = true := by
    rw [Cache.find_fst]; exact hpresent
  unfold register
  repeat' split
  any_goals simp_all [Bool.and_eq_true]
  rcases hf : inj.library.find key true with ⟨fv, lib2⟩
  rcases fv with _ | v
  · rw [hf] at hsome; simp at hsome
  · simp

/-- Witness for c6_amended: re-registering *Injector with a valid
scope-lifecycle constructor fails with AlreadyRegistered. -/
theorem c6_amended_witness :
    (register (New .Map) injectorKey
      { ctorType := .funcT [] [injectorKey] false, lifecycle := .scope }).1 =
      some (.wrapped .alreadyRegistered [injectorKey]) :=
  c6_amended (New .Map) injectorKey _ (by decide) (by decide) (by decide)
    (by intro h; simp at h) (by intro _; decide) (by decide) (by decide)

/-! ### Claim C7 -/

/-- Claim C7, evaluation at the failing input: Call1 with a non-function
value panics (indexing the nil slice callN returned with its error)
instead of returning NotAFunction, and CallN with a non-function value
panics inside reflect before callN runs; only Call surfaces the
NotAFunction error as an ordinary return — contradicting the claim that
every Call-family entry point returns the specific error kind. -/
theorem c7_call1_panics_on_not_a_function :
    Call1 (New .Map) (GoType.basic "int") 5 = some (.panicked, New .Map) ∧
    CallN (New .Map) (GoType.basic "int") 5 = some (.panicked, New .Map) ∧
    (Call (New .Map) (GoType.basic "int") 5).map Prod.fst =
      some (.ret (some (.wrapped .notAFunction [GoType.basic "int"]))) := by
  decide

/-! ### Claim C9 -/

/-- A two-entry bubble list with zero access counters, as Add builds
it. -/
def c9Entries : List (BubbleNode Nat Nat) := [⟨1, 10, 0⟩, ⟨2, 20, 0⟩]

/-- Claim C9, evaluation at the failing input: a reordering Find that
matches the second entry leaves the stored list completely unchanged —
the counter increment lands on the loop copy of the node, so the stored
counter stays zero and the promised swap toward the front never happens.
The claim's expected states (counter incremented in place, or incremented
and swapped) are both refuted. -/
theorem c9_bubble_find_never_promotes :
    bubbleFind c9Entries 2 true = (some 20, c9Entries) ∧
    bubbleFind c9Entries 2 true ≠ (some 20, [⟨1, 10, 0⟩, ⟨2, 20, 1⟩]) ∧
    bubbleFind c9Entries 2 true ≠ (some 20, [⟨2, 20, 1⟩, ⟨1, 10, 0⟩]) := by
  decide

/-! ### Claim C10 -/

/-- A verified injector for the C10 counterexample. -/
def c10Verified : Injector :=
  match Verify (New .Map) 5 with
  | some (_, i) => i
  | none => New .Map

/-- The C10 injector after a failed (AlreadyRegistered) registration. -/
def c10AfterFailedReg : Injector :=
  (register c10Verified injectorKey
    { ctorType := .funcT [] [injectorKey] false, lifecycle := .singleton }).2

/-- Claim C10, counterexample: after a failed registration on a
previously verified injector the verified flag is indeed false, but a
Call-family resolution still succeeds, contradicting the claim that every
subsequent resolution fails with BadState. -/
theorem c10_counterexample :
    c10Verified.verified = true ∧
    (register c10Verified injectorKey
      { ctorType := .funcT [] [injectorKey] false, lifecycle := .singleton }).1 =
      some (.wrapped .alreadyRegistered [injectorKey]) ∧
    c10AfterFailedReg.verified = false ∧
    (Call c10AfterFailedReg (GoType.funcT [] [] false) 5).map Prod.fst = some (.ret none) := by
  decide

/-- Claim C10 (amended): every registration attempt, successful or
failing, leaves the verified flag false; consequently, after any
registration on a previously verified injector (whose stored verification
error is nil), every subsequent Get-family resolution fails with the
never-verified BadState error and leaves the injector untouched, until
Verify is run again; Call-family invocations perform no verified-state
check. -/
theorem c10_amended (inj : Injector) (key : GoType) (info : ObjectInfo) (k : GoType)
    (fuel : Nat) (hvr : inj.verificationError = none) :
    (register inj key info).2.verified = false ∧
    (register inj key info).2.Get k fuel =
      some ((.nilAny, some .badStateNotVerified), (register inj key info).2) := by
  obtain ⟨hv, he⟩ := register_state inj key info
  refine ⟨hv, ?_⟩
  simp [Injector.Get, assertValidState, hv, he, hvr]

/-- Witness for c10_amended at the concrete verified injector. -/
theorem c10_amended_witness :
    ((register c10Verified injectorKey
      { ctorType := .funcT [] [injectorKey] false, lifecycle := .singleton }).2.verified
        = false) ∧
    (register c10Verified injectorKey
      { ctorType := .funcT [] [injectorKey] false, lifecycle := .singleton }).2.Get
        injectorKey 5 =
      some ((.nilAny, some .badStateNotVerified),
        (register c10Verified injectorKey
          { ctorType := .funcT [] [injectorKey] false, lifecycle := .singleton }).2) :=
  c10_amended c10Verified injectorKey _ injectorKey 5 (by decide)

/-! ### Claim C5 -/

/-- A script of cache operations, replayed identically against each
strategy. -/
inductive SOp (κ ν : Type) where
  | add (k : κ) (v : ν)
  | find (k : κ) (reorder : Bool)
deriving DecidableEq

/-- Replay a script against a cache, collecting every Find result in
order. -/
def runOps {κ ν : Type} [DecidableEq κ] :
    Cache κ ν → List (SOp κ ν) → List (Option ν) × Cache κ ν
  | c, [] => ([], c)
  | c, .add k v :: rest => runOps (c.add k v) rest
  | c, .find k r :: rest =>
    let fr := c.find k r
    let rr := runOps fr.2 rest
    (fr.1 :: rr.1, rr.2)

/-- The keys of the script's Add operations, in order. -/
def addKeys {κ ν : Type} : List (SOp κ ν) → List κ
  | [] => []
  | .add k _ :: rest => k :: addKeys rest
  | .find _ _ :: rest => addKeys rest

section C5Lemmas

variable {κ ν : Type} [DecidableEq κ]

theorem assocFind_eq_none (l : List (κ × ν)) (k : κ) :
    assocFind l k = none ↔ k ∉ l.map Prod.fst := by
  induction l with
  | nil => simp [assocFind]
  | cons p rest ih =>
    obtain ⟨k0, v0⟩ := p
    by_cases h : k0 = k
    · subst h
      simp [assocFind]
    · simp [assocFind, h, ih, Ne.symm h]

theorem assocFind_mem {l : List (κ × ν)} {k : κ} {v : ν} (h : assocFind l k = some v) :
    (k, v) ∈ l := by
  induction l with
  | nil => simp [assocFind] at h
  | cons p rest ih =>
    obtain ⟨k0, v0⟩ := p
    by_cases hk : k0 = k
    · simp [assocFind, hk] at h
      simp [hk, h]
    · simp [assocFind, hk] at h
      simp [ih h]

theorem mem_assocFind {l : List (κ × ν)} (hnd : (l.map Prod.fst).Nodup) {k : κ} {v : ν}
    (h : (k, v) ∈ l) : assocFind l k = some v := by
  induction l with
  | nil => simp at h
  | cons p rest ih =>
    obtain ⟨k0, v0⟩ := p
    simp only [List.map_cons, List.nodup_cons] at hnd
    rcases List.mem_cons.mp h with h0 | h0
    · cases h0
      simp [assocFind]
    · have hk : k0 ≠ k := by
        intro he
        subst he
        exact hnd.1 (List.mem_map.mpr ⟨(k0, v), h0, rfl⟩)
      simp [assocFind, hk, ih hnd.2 h0]

theorem assocFind_perm {l l' : List (κ × ν)} (hp : l.Perm l')
    (hnd : (l.map Prod.fst).Nodup) (k : κ) : assocFind l k = assocFind l' k := by
  have hnd' : (l'.map Prod.fst).Nodup := ((hp.map Prod.fst).nodup_iff).mp hnd
  cases h : assocFind l' k with
  | none =>
    rw [assocFind_eq_none] at h ⊢
    intro hc
    exact h (((hp.map Prod.fst).mem_iff).mp hc)
  | some v =>
    exact mem_assocFind hnd (hp.mem_iff.mpr (assocFind_mem h))

/-- The bubble-node image of an association list, as Add builds it. -/
def toNodes (l : List (κ × ν)) : List (BubbleNode κ ν) :=
  l.map (fun p => ⟨p.1, p.2, 0⟩)

theorem bubbleFindIdx_val (l : List (κ × ν)) (k : κ) :
    ∀ i, (bubbleFindIdx (toNodes l) k i).map (fun x => x.2.value) = assocFind l k := by
  induction l with
  | nil => intro i; rfl
  | cons p rest ih =>
    intro i
    obtain ⟨k0, v0⟩ := p
    by_cases h : k0 = k <;> simp [toNodes, bubbleFindIdx, assocFind, h] <;>
      simpa [toNodes] using ih (i + 1)

theorem bubbleFind_val (l : List (κ × ν)) (k : κ) (r : Bool) :
    (bubbleFind (toNodes l) k r).1 = assocFind l k := by
  have hv := bubbleFindIdx_val l k 0
  unfold bubbleFind
  cases h : bubbleFindIdx (toNodes l) k 0 with
  | none => rw [h] at hv; exact hv
  | some ie => obtain ⟨i, e⟩ := ie; rw [h] at hv; exact hv

theorem mem_of_getElemOpt {α : Type} {l : List α} {i : Nat} {a : α}
    (h : l[i]? = some a) : a ∈ l := by
  obtain ⟨h2, rfl⟩ := List.getElem?_eq_some.mp h
  exact List.getElem_mem h2

theorem bubbleReorder_allzero (es : List (BubbleNode κ ν)) (i : Nat) (e : BubbleNode κ ν)
    (hz : ∀ n ∈ es, n.accesses = 0) : bubbleReorder es i e = es := by
  unfold bubbleReorder
  split
  · split
    · rename_i cur prev h1 h2
      have hc := hz cur (mem_of_getElemOpt h1)
      have hp := hz prev (mem_of_getElemOpt h2)
      simp [hc, hp]
    · rfl
  · rfl

theorem bubbleFind_state_allzero (es : List (BubbleNode κ ν)) (k : κ) (r : Bool)
    (hz : ∀ n ∈ es, n.accesses = 0) : (bubbleFind es k r).2 = es := by
  unfold bubbleFind
  cases h : bubbleFindIdx es k 0 with
  | none => rfl
  | some ie =>
    obtain ⟨i, e⟩ := ie
    cases r with
    | false => rfl
    | true => simp [bubbleReorder_allzero es i e hz]

theorem toNodes_allzero (l : List (κ × ν)) : ∀ n ∈ toNodes l, n.accesses = 0 := by
  intro n hn
  simp only [toNodes, List.mem_map] at hn
  obtain ⟨p, _, rfl⟩ := hn
  rfl

theorem priorityFindIdx_val (es : List (κ × ν)) (k : κ) :
    ∀ i, (priorityFindIdx es k i).map (fun x => x.2) = assocFind es k := by
  induction es with
  | nil => intro i; rfl
  | cons p rest ih =>
    intro i
    obtain ⟨k0, v0⟩ := p
    by_cases h : k0 = k <;> simp [priorityFindIdx, assocFind, h] <;> simpa using ih (i + 1)

theorem priorityFind_val (es : List (κ × ν)) (k : κ) (r : Bool) :
    (priorityFind es k r).1 = assocFind es k := by
  have hv := priorityFindIdx_val es k 0
  unfold priorityFind
  cases h : priorityFindIdx es k 0 with
  | none => rw [h] at hv; exact hv
  | some iv => obtain ⟨i, v⟩ := iv; rw [h] at hv; exact hv

theorem priorityFind_state_perm (es : List (κ × ν)) (k : κ) (r : Bool) :
    (priorityFind es k r).2.Perm es := by
  unfold priorityFind
  cases h : priorityFindIdx es k 0 with
  | none => exact List.Perm.refl es
  | some iv =>
    obtain ⟨i, v⟩ := iv
    simp only
    split
    · cases hg : es[i]? with
      | none => exact List.Perm.refl es
      | some node =>
        obtain ⟨hlt, hnode⟩ := List.getElem?_eq_some.mp hg
        have hsplit : es = es.take i ++ es[i] :: es.drop (i + 1) := by
          conv_lhs => rw [← List.take_append_drop i es]
          rw [List.drop_eq_getElem_cons hlt]
        have h1 : (node :: es.eraseIdx i).Perm (es.take i ++ node :: es.drop (i + 1)) := by
          rw [List.eraseIdx_eq_take_drop_succ]
          exact List.perm_middle.symm
        rw [hnode] at hsplit
        have h2 : es.take i ++ node :: es.drop (i + 1) = es := hsplit.symm
        have h3 : (node :: es.eraseIdx i).Perm es := by
          conv_rhs => rw [← h2]
          exact h1
        exact h3
    · exact List.Perm.refl es

theorem mapAdd_fresh (l : List (κ × ν)) (k : κ) (v : ν) (h : k ∉ l.map Prod.fst) :
    mapAdd l k v = l ++ [(k, v)] := by
  unfold mapAdd
  rw [if_neg]
  simp only [List.any_eq_true, decide_eq_true_eq, not_exists]
  exact fun p hp => h (List.mem_map.mpr ⟨p, hp.1, hp.2⟩)

/-- Replaying any script whose Add keys are pairwise distinct and fresh
for the common base yields identical Find results on the Go map, the
bubble list and the priority list. -/
theorem runOps_agree (ops : List (SOp κ ν)) :
    ∀ (base ep : List (κ × ν)),
    (base.map Prod.fst).Nodup → ep.Perm base →
    (∀ k ∈ addKeys ops, k ∉ base.map Prod.fst) → (addKeys ops).Nodup →
    (runOps (Cache.mapCache base) ops).1 = (runOps (Cache.bubbleList (toNodes base)) ops).1 ∧
    (runOps (Cache.mapCache base) ops).1 = (runOps (Cache.priorityList ep) ops).1 := by
  induction ops with
  | nil => intro base ep _ _ _ _; exact ⟨rfl, rfl⟩
  | cons op rest ih =>
    intro base ep hnd hperm hfresh hand
    cases op with
    | add k v =>
      have hk : k ∉ base.map Prod.fst := hfresh k (by simp [addKeys])
      have hstep : ∀ c : Cache κ ν, runOps c ((SOp.add k v) :: rest) = runOps (c.add k v) rest :=
        fun c => rfl
      rw [hstep, hstep, hstep]
      simp only [Cache.add]
      rw [mapAdd_fresh base k v hk]
      have h1 : toNodes base ++ [⟨k, v, 0⟩] = toNodes (base ++ [(k, v)]) := by
        simp [toNodes]
      rw [h1]
      apply ih
      · simp only [List.map_append, List.nodup_append]
        exact ⟨hnd, List.nodup_singleton (k, v).1, List.disjoint_singleton.mpr hk⟩
      · exact (hperm.cons (k, v)).trans (List.perm_append_singleton (k, v) base).symm
      · intro k2 hk2
        simp only [List.map_append, List.mem_append]
        rintro (hc | hc)
        · exact hfresh k2 (by simp [addKeys, hk2]) hc
        · simp at hc
          have hknot : k ∉ addKeys rest := by
            simpa [addKeys] using (List.nodup_cons.mp (by simpa [addKeys] using hand)).1
          exact hknot (hc ▸ hk2)
      · simpa [addKeys] using (List.nodup_cons.mp (by simpa [addKeys] using hand)).2
    | find k r =>
      have hndp : (ep.map Prod.fst).Nodup :=
        ((hperm.map Prod.fst).nodup_iff).mpr hnd
      have hval : (priorityFind ep k r).1 = assocFind base k := by
        rw [priorityFind_val]
        exact assocFind_perm hperm hndp k
      have hbval : (bubbleFind (toNodes base) k r).1 = assocFind base k :=
        bubbleFind_val base k r
      have hbstate : (bubbleFind (toNodes base) k r).2 = toNodes base :=
        bubbleFind_state_allzero _ _ _ (toNodes_allzero base)
      have hpperm : (priorityFind ep k r).2.Perm base :=
        (priorityFind_state_perm ep k r).trans hperm
      have hrest := ih base (priorityFind ep k r).2 hnd hpperm
        (fun k2 hk2 => hfresh k2 (by simp [addKeys, hk2]))
        (by simpa [addKeys] using hand)
      simp only [runOps, Cache.find, hbval, hbstate, hval]
      exact ⟨by rw [hrest.1], by rw [hrest.2]⟩

end C5Lemmas

/-- The duplicate-key script of the C5 counterexample. -/
def c5Ops : List (SOp Nat Nat) := [.add 0 1, .add 0 2, .find 0 false]

/-- Claim C5, counterexample: with Add called twice for the same key, the
three strategies disagree — the map overwrites (Find yields the second
value), the bubble list appends and scans from the front (Find yields the
first value), and the priority list prepends (Find yields the second
value). -/
theorem c5_counterexample :
    (runOps (Cache.mapCache []) c5Ops).1 = [some 2] ∧
    (runOps (Cache.bubbleList []) c5Ops).1 = [some 1] ∧
    (runOps (Cache.priorityList []) c5Ops).1 = [some 2] := by
  decide

/-- Claim C5 (amended): for every sequence of Add calls with pairwise
distinct keys followed by any interleaving of Find calls with arbitrary
reorder flags, the three cache strategies return identical Find results
(same found/not-found, same value at every Find); when Add is called more
than once with the same key the strategies disagree, because Add is an
unconditional insert whose placement differs per strategy. -/
theorem c5_amended {κ ν : Type} [DecidableEq κ] (ops : List (SOp κ ν))
    (hdistinct : (addKeys ops).Nodup) :
    (runOps (Cache.mapCache []) ops).1 = (runOps (Cache.bubbleList []) ops).1 ∧
    (runOps (Cache.mapCache []) ops).1 = (runOps (Cache.priorityList []) ops).1 :=
  runOps_agree ops [] [] (by simp) (List.Perm.refl _) (by simp) hdistinct

/-- Witness for c5_amended on a concrete distinct-key script with
reordering finds. -/
theorem c5_amended_witness :
    (runOps (Cache.mapCache []) ([.add 1 10, .add 2 20, .find 2 true, .find 2 true,
        .find 3 false, .find 1 true] : List (SOp Nat Nat))).1 =
      (runOps (Cache.bubbleList []) ([.add 1 10, .add 2 20, .find 2 true, .find 2 true,
        .find 3 false, .find 1 true] : List (SOp Nat Nat))).1 ∧
    (runOps (Cache.mapCache []) ([.add 1 10, .add 2 20, .find 2 true, .find 2 true,
        .find 3 false, .find 1 true] : List (SOp Nat Nat))).1 =
      (runOps (Cache.priorityList []) ([.add 1 10, .add 2 20, .find 2 true, .find 2 true,
        .find 3 false, .find 1 true] : List (SOp Nat Nat))).1 :=
  c5_amended _ (by decide)

/-! ### Claim C8 -/

/-- Pool invariant: every pooled scope stack is empty.  It holds for a
fresh injector and is preserved by Get and callN because the deferred
CheckIn returns the slice value captured at CheckOut time, which is
always an empty stack. -/
def poolInv (inj : Injector) : Prop := ∀ st ∈ inj.scopePool, st = []

theorem checkOut_inv {pool : List (List ScopedInstance)} (h : ∀ st ∈ pool, st = []) :
    (checkOut pool).1 = [] ∧ ∀ st ∈ (checkOut pool).2, st = [] := by
  cases pool with
  | nil => exact ⟨rfl, by intro st hst; cases hst⟩
  | cons p rest =>
    constructor
    · have hne : (p :: rest) ≠ [] := by simp
      have hmem : (p :: rest).getLastD [] ∈ (p :: rest) := by
        rw [List.getLastD_eq_getLast?, List.getLast?_eq_getLast _ hne]
        exact List.getLast_mem hne
      exact h _ hmem
    · intro st hst
      exact h st (List.dropLast_subset _ (by simpa [checkOut] using hst))

/-- The frame a single resolution step preserves: the serial counter
never decreases and the pool is untouched. -/
def GetMono (getF : Injector → GoType → List ScopedInstance →
    Option ((GoVal × Option GoErr) × Injector × List ScopedInstance)) : Prop :=
  ∀ i k s r i2 s2, getF i k s = some (r, i2, s2) →
    i.nextSerial ≤ i2.nextSerial ∧ i2.scopePool = i.scopePool

theorem resolveParams_mono {getF} (h : GetMono getF) :
    ∀ ps (i : Injector) s r i2 s2, resolveParams getF i ps s = some (r, i2, s2) →
      i.nextSerial ≤ i2.nextSerial ∧ i2.scopePool = i.scopePool := by
  intro ps
  induction ps with
  | nil =>
    intro i s r i2 s2 hr
    unfold resolveParams at hr
    simp at hr
    obtain ⟨-, h2, -⟩ := hr
    subst h2
    exact ⟨Nat.le_refl _, rfl⟩
  | cons p rest ih =>
    intro i s r i2 s2 hr
    unfold resolveParams at hr
    split at hr
    · cases hr
    · rename_i x hget
      cases hr
      obtain ⟨h1, h2⟩ := h _ _ _ _ _ _ hget
      exact ⟨h1, h2⟩
    · rename_i v0 i1 s1 hget
      obtain ⟨hm1, hm2⟩ := h _ _ _ _ _ _ hget
      split at hr
      · cases hr
      · rename_i e i3 s3 hrest
        cases hr
        obtain ⟨h1, h2⟩ := ih _ _ _ _ _ hrest
        exact ⟨Nat.le_trans hm1 h1, h2.trans hm2⟩
      · rename_i vs i3 s3 hrest
        cases hr
        obtain ⟨h1, h2⟩ := ih _ _ _ _ _ hrest
        exact ⟨Nat.le_trans hm1 h1, h2.trans hm2⟩

theorem invokeCtor_mono {getF} (h : GetMono getF) (i : Injector) (key : GoType)
    (info : ObjectInfo) (s : List ScopedInstance) {r i2 s2}
    (hr : invokeCtor getF i key info s = some (r, i2, s2)) :
    i.nextSerial ≤ i2.nextSerial ∧ i2.scopePool = i.scopePool := by
  unfold invokeCtor at hr
  split at hr
  · cases hr
  · rename_i e i1 s1 hres
    cases hr
    exact resolveParams_mono h _ _ _ _ _ _ hres
  · rename_i vs i1 s1 hres
    obtain ⟨h1, h2⟩ := resolveParams_mono h _ _ _ _ _ _ hres
    split at hr
    · split at hr
      · cases hr
        exact ⟨Nat.le_trans h1 (Nat.le_succ _), h2⟩
      · cases hr
        exact ⟨Nat.le_trans h1 (Nat.le_succ _), h2⟩
    · cases hr
      exact ⟨Nat.le_trans h1 (Nat.le_succ _), h2⟩

theorem getBuild_mono {getF} (h : GetMono getF) (i : Injector) (key : GoType)
    (info : ObjectInfo) (s : List ScopedInstance) {r i2 s2}
    (hr : getBuild getF i key info s = some (r, i2, s2)) :
    i.nextSerial ≤ i2.nextSerial ∧ i2.scopePool = i.scopePool := by
  unfold getBuild at hr
  split at hr
  · cases hr
  · rename_i x e i3 s3 heq
    cases hr
    obtain ⟨h1, h2⟩ := invokeCtor_mono h _ _ _ _ heq
    exact ⟨h1, h2⟩
  · rename_i x obj i3 s3 heq
    obtain ⟨h1, h2⟩ := invokeCtor_mono h _ _ _ _ heq
    split at hr
    · cases hr
      exact ⟨h1, h2⟩
    · cases hr
      exact ⟨h1, h2⟩
    · cases hr
      exact ⟨h1, h2⟩

theorem get_mono : ∀ fuel, GetMono (fun i k s => Injector.get i k s fuel) := by
  intro fuel
  induction fuel with
  | zero =>
    intro i k s r i2 s2 hr
    simp [Injector.get] at hr
  | succ f ih =>
    intro i k s r i2 s2 hr
    simp only [Injector.get] at hr
    split at hr
    · cases hr
      exact ⟨Nat.le_refl _, rfl⟩
    · rename_i info lib1 hfind
      split at hr
      · split at hr
        · cases hr
          exact ⟨Nat.le_refl _, rfl⟩
        · split at hr
          · split at hr
            · cases hr
            · rename_i x e i3 s3 heq
              cases hr
              obtain ⟨h1, h2⟩ := invokeCtor_mono ih _ _ _ _ heq
              exact ⟨h1, h2⟩
            · rename_i x obj i3 s3 heq
              cases hr
              obtain ⟨h1, h2⟩ := invokeCtor_mono ih _ _ _ _ heq
              exact ⟨h1, h2⟩
          · obtain ⟨h1, h2⟩ := getBuild_mono ih _ _ _ _ hr
            exact ⟨h1, h2⟩
      · split at hr
        · cases hr
          exact ⟨Nat.le_refl _, rfl⟩
        · obtain ⟨h1, h2⟩ := getBuild_mono ih _ _ _ _ hr
          exact ⟨h1, h2⟩
      · split at hr
        · split at hr
          · cases hr
          · rename_i x res i3 s3 heq
            cases hr
            obtain ⟨h1, h2⟩ := invokeCtor_mono ih _ _ _ _ heq
            exact ⟨h1, h2⟩
        · obtain ⟨h1, h2⟩ := getBuild_mono ih _ _ _ _ hr
          exact ⟨h1, h2⟩

theorem invokeCtor_val {getF} (h : GetMono getF) (i : Injector) (key : GoType)
    (info : ObjectInfo) (s : List ScopedInstance) {v e i2 s2}
    (hr : invokeCtor getF i key info s = some ((v, e), i2, s2)) :
    (v = .nilAny ∧ e.isSome = true) ∨
    (∃ n, v = .obj key n ∧ i.nextSerial ≤ n ∧ n < i2.nextSerial) := by
  unfold invokeCtor at hr
  split at hr
  · cases hr
  · rename_i e0 i1 s1 heq
    cases hr
    exact Or.inl ⟨rfl, rfl⟩
  · rename_i vs i1 s1 heq
    obtain ⟨h1, h2⟩ := resolveParams_mono h _ _ _ _ _ _ heq
    split at hr
    · split at hr
      · cases hr
        exact Or.inr ⟨i1.nextSerial, rfl, h1, Nat.lt_succ_self _⟩
      · cases hr
        exact Or.inr ⟨i1.nextSerial, rfl, h1, Nat.lt_succ_self _⟩
    · cases hr
      exact Or.inr ⟨i1.nextSerial, rfl, h1, Nat.lt_succ_self _⟩

theorem getBuild_val {getF} (h : GetMono getF) (i : Injector) (key : GoType)
    (info : ObjectInfo) (s : List ScopedInstance) {v e i2 s2}
    (hr : getBuild getF i key info s = some ((v, e), i2, s2)) :
    (v = .nilAny ∧ e.isSome = true) ∨
    (∃ n, v = .obj key n ∧ i.nextSerial ≤ n ∧ n < i2.nextSerial) := by
  unfold getBuild at hr
  split at hr
  · cases hr
  · rename_i x e0 i3 s3 heq
    cases hr
    exact Or.inl ⟨rfl, rfl⟩
  · rename_i x obj i3 s3 heq
    rcases invokeCtor_val h _ _ _ _ heq with ⟨hnil, hsome⟩ | ⟨n, hobj, hle, hlt⟩
    · simp at hsome
    · split at hr
      · cases hr
        exact Or.inr ⟨n, hobj, hle, hlt⟩
      · cases hr
        exact Or.inr ⟨n, hobj, hle, hlt⟩
      · cases hr
        exact Or.inr ⟨n, hobj, hle, hlt⟩

theorem get_scope_val (fuel : Nat) (i : Injector) (key : GoType) (info : ObjectInfo)
    (lib1 : Cache GoType ObjectInfo) {v : GoVal} {i2 : Injector} {s2 : List ScopedInstance}
    (hf : i.library.find key true = (some info, lib1))
    (hl : info.lifecycle = .scope)
    (hr : Injector.get i key [] fuel = some ((v, none), i2, s2)) :
    ∃ n, v = .obj key n ∧ i.nextSerial ≤ n ∧ n < i2.nextSerial := by
  cases fuel with
  | zero => simp [Injector.get] at hr
  | succ f =>
    simp only [Injector.get, hf, hl, scopedLookup] at hr
    split at hr
    · split at hr
      · cases hr
      · cases hr
      · rename_i x obj i3 s3 heq
        cases hr
        rcases invokeCtor_val (get_mono f) _ _ _ _ heq with ⟨hnil, hsome⟩ | ⟨n, hobj, hle, hlt⟩
        · simp at hsome
        · exact ⟨n, hobj, hle, hlt⟩
    · rcases getBuild_val (get_mono f) _ _ _ _ hr with ⟨hnil, hsome⟩ | ⟨n, hobj, hle, hlt⟩
      · simp at hsome
      · exact ⟨n, hobj, hle, hlt⟩

theorem Get_scope_fresh {inj : Injector} {key : GoType} {fuel : Nat}
    {info : ObjectInfo} {lib1 : Cache GoType ObjectInfo} {v : GoVal} {inj1 : Injector}
    (hpool : poolInv inj)
    (hf : inj.library.find key true = (some info, lib1))
    (hl : info.lifecycle = .scope)
    (hr : inj.Get key fuel = some ((v, none), inj1)) :
    (∃ n, v = .obj key n ∧ inj.nextSerial ≤ n ∧ n < inj1.nextSerial) ∧ poolInv inj1 := by
  unfold Injector.Get at hr
  cases hav : assertValidState inj with
  | some e => rw [hav] at hr; cases hr
  | none =>
    rw [hav] at hr
    obtain ⟨hstack, hpool1⟩ := checkOut_inv hpool
    rcases hco : checkOut inj.scopePool with ⟨stack, pool1⟩
    rw [hco] at hr hstack hpool1
    simp only at hr hstack hpool1
    subst hstack
    cases hget : Injector.get { inj with scopePool := pool1 } key [] fuel with
    | none => rw [hget] at hr; cases hr
    | some x =>
      obtain ⟨⟨v0, e0⟩, i3, s3⟩ := x
      rw [hget] at hr
      cases e0 with
      | some e => cases hr
      | none =>
        cases hr
        obtain ⟨hn, hframe⟩ := get_mono fuel _ _ _ _ _ _ hget
        obtain ⟨n, hobj, hle, hlt⟩ :=
          get_scope_val fuel { inj with scopePool := pool1 } key info lib1 hf hl hget
        refine ⟨⟨n, hobj, hle, hlt⟩, ?_⟩
        intro st hst
        rw [hframe] at hst
        rcases List.mem_append.mp hst with hin | hin
        · exact hpool1 st hin
        · simp at hin
          exact hin

theorem scopedLookup_append {mid : List ScopedInstance} {key : GoType} {v : GoVal}
    (h : scopedLookup mid key = none) :
    scopedLookup (mid ++ [⟨key, v⟩]) key = some v := by
  induction mid with
  | nil => simp [scopedLookup]
  | cons item rest ih =>
    by_cases hk : item.type = key
    · simp [scopedLookup, hk] at h
    · rw [scopedLookup, if_neg hk] at h
      show scopedLookup (item :: (rest ++ [⟨key, v⟩])) key = some v
      rw [scopedLookup, if_neg hk]
      exact ih h

/-- Claim C8: within one resolution call, a request for a Scoped key that
is already on the borrowed scope stack returns exactly the stored
instance, without building anything and without touching the stack or the
serial counter (first conjunct); a successful first request appends the
built instance to the end of the stack, so that every later same-call
request finds it (second conjunct); and two separate Get invocations on a
Scoped key build distinct fresh instances, because each call borrows its
own scope stack from the pool (whose stacks are always empty, the
deferred CheckIn returning the value captured at CheckOut) and scoped
instances never carry over between calls (third conjunct). -/
theorem c8_scoped_lifecycle :
    (∀ (inj : Injector) (key : GoType) (sc : List ScopedInstance) (fuel : Nat)
       (v : GoVal) (info : ObjectInfo) (lib1 : Cache GoType ObjectInfo),
       inj.library.find key true = (some info, lib1) → info.lifecycle = .scope →
       scopedLookup sc key = some v →
       Injector.get inj key sc (fuel + 1) =
         some ((v, none), { inj with library := lib1 }, sc)) ∧
    (∀ (inj : Injector) (key : GoType) (sc : List ScopedInstance) (fuel : Nat)
       (v : GoVal) (inj2 : Injector) (sc2 : List ScopedInstance)
       (info : ObjectInfo) (lib1 : Cache GoType ObjectInfo),
       inj.library.find key true = (some info, lib1) → info.lifecycle = .scope →
       scopedLookup sc key = none →
       Injector.get inj key sc fuel = some ((v, none), inj2, sc2) →
       ∃ mid, sc2 = mid ++ [⟨key, v⟩] ∧
         (scopedLookup mid key = none → scopedLookup sc2 key = some v)) ∧
    (∀ (inj : Injector) (key : GoType) (fuel1 fuel2 : Nat) (v1 v2 : GoVal)
       (inj1 inj2 : Injector) (info : ObjectInfo) (lib1 : Cache GoType ObjectInfo)
       (info2 : ObjectInfo) (lib2 : Cache GoType ObjectInfo),
       poolInv inj →
       inj.library.find key true = (some info, lib1) → info.lifecycle = .scope →
       inj1.library.find key true = (some info2, lib2) → info2.lifecycle = .scope →
       inj.Get key fuel1 = some ((v1, none), inj1) →
       inj1.Get key fuel2 = some ((v2, none), inj2) →
       v1 ≠ v2 ∧ poolInv inj1 ∧ poolInv inj2) := by
  refine ⟨?_, ?_, ?_⟩
  · intro inj key sc fuel v info lib1 hf hl hs
    simp only [Injector.get, hf, hl, hs]
  · intro inj key sc fuel v inj2 sc2 info lib1 hf hl hs hg
    cases fuel with
    | zero => simp [Injector.get] at hg
    | succ f =>
      simp only [Injector.get, hf, hl, hs] at hg
      split at hg
      · split at hg
        · cases hg
        · cases hg
        · rename_i x obj i3 s3 heq
          cases hg
          exact ⟨s3, rfl, fun hm => scopedLookup_append hm⟩
      · unfold getBuild at hg
        split at hg
        · cases hg
        · cases hg
        · rename_i x obj i3 s3 heq
          rw [hl] at hg
          cases hg
          exact ⟨s3, rfl, fun hm => scopedLookup_append hm⟩
  · intro inj key fuel1 fuel2 v1 v2 inj1 inj2 info lib1 info2 lib2 hpool hf hl hf2 hl2 hg1 hg2
    obtain ⟨⟨n1, hv1, hle1, hlt1⟩, hpool1⟩ := Get_scope_fresh hpool hf hl hg1
    obtain ⟨⟨n2, hv2, hle2, hlt2⟩, hpool2⟩ := Get_scope_fresh hpool1 hf2 hl2 hg2
    refine ⟨?_, hpool1, hpool2⟩
    rw [hv1, hv2]
    intro hcontra
    simp only [GoVal.obj.injEq] at hcontra
    have : n1 < n2 := Nat.lt_of_lt_of_le hlt1 hle2
    have := hcontra.2
    subst this
    exact Nat.lt_irrefl n1 this

/-- Concrete scope-registered type for the C8 witness. -/
def c8S : GoType := .structT "test.S" []

/-- Verified injector with one scope registration. -/
def c8Injector : Injector :=
  let s1 := (registerScope (New .Map) c8S (.funcT [] [c8S] false)).2
  match Verify s1 5 with
  | some (_, i) => i
  | none => s1

/-- The injector after the first Get of the scoped key. -/
def c8Inj1 : Injector :=
  match c8Injector.Get c8S 5 with
  | some (_, i) => i
  | none => c8Injector

/-- The injector after the second Get of the scoped key. -/
def c8Inj2 : Injector :=
  match c8Inj1.Get c8S 5 with
  | some (_, i) => i
  | none => c8Inj1

/-- Witness for c8_scoped_lifecycle on the concrete injector: the two
separate Gets build the distinct instances obj 0 and obj 1, and the pool
invariant survives both calls. -/
theorem c8_scoped_lifecycle_witness :
    c8Injector.Get c8S 5 = some ((GoVal.obj c8S 0, none), c8Inj1) ∧
    c8Inj1.Get c8S 5 = some ((GoVal.obj c8S 1, none), c8Inj2) ∧
    (GoVal.obj c8S 0 ≠ GoVal.obj c8S 1 ∧ poolInv c8Inj1 ∧ poolInv c8Inj2) :=
  ⟨by decide, by decide,
   c8_scoped_lifecycle.2.2 c8Injector c8S 5 5 (GoVal.obj c8S 0) (GoVal.obj c8S 1)
     c8Inj1 c8Inj2
     { ctorType := .funcT [] [c8S] false, lifecycle := .scope } c8Injector.library
     { ctorType := .funcT [] [c8S] false, lifecycle := .scope, hasCtorFunction := true }
     c8Inj1.library
     (by unfold poolInv; decide) (by decide) (by decide) (by decide) (by decide)
     (by decide) (by decide)⟩

/-! ### Claims C3 and C4: the graph verifier -/

/-- The constructor signatures of all stored records. -/
def recordSigs (lib : Cache GoType ObjectInfo) : Finset GoType :=
  ((lib.all).map (fun kv => kv.2.ctorType)).toFinset

/-- Full registration: every constructor parameter type of every stored
record is itself registered. -/
def FullyRegistered (lib : Cache GoType ObjectInfo) : Prop :=
  ∀ kv ∈ lib.all, ∀ p ∈ kv.2.ctorType.params, (findNR lib p).isSome = true

/-- A repeated constructor signature is reachable from the given DFS
stack, whose focus is its last element: either some parameter of the
focus resolves to a signature already on the stack, or pushing a fresh
parameter signature leads to such a repeat.  This is exactly the
condition under which verifyStack can emit DependencyLoop. -/
inductive Bad (lib : Cache GoType ObjectInfo) : List GoType → Prop
  | hit {stack : List GoType} {σ p : GoType} {pinfo : ObjectInfo} :
      stack.getLast? = some σ → p ∈ σ.params →
      findNR lib p = some pinfo → pinfo.ctorType ∈ stack → Bad lib stack
  | push {stack : List GoType} {σ p : GoType} {pinfo : ObjectInfo} :
      stack.getLast? = some σ → p ∈ σ.params →
      findNR lib p = some pinfo → pinfo.ctorType ∉ stack →
      Bad lib (stack ++ [pinfo.ctorType]) → Bad lib stack

section FindAllBridges

variable {κ ν : Type} [DecidableEq κ]

theorem assocFind_isSome {l : List (κ × ν)} {k : κ} {v : ν} (h : (k, v) ∈ l) :
    (assocFind l k).isSome = true := by
  induction l with
  | nil => cases h
  | cons p rest ih =>
    obtain ⟨k0, v0⟩ := p
    by_cases hk : k0 = k
    · simp [assocFind, hk]
    · rcases List.mem_cons.mp h with h0 | h0
      · cases h0; exact absurd rfl hk
      · simpa [assocFind, hk] using ih h0

theorem bubbleFindIdx_some {es : List (BubbleNode κ ν)} {k : κ} :
    ∀ {j i e}, bubbleFindIdx es k j = some (i, e) → e ∈ es ∧ e.key = k := by
  induction es with
  | nil => intro j i e h; simp [bubbleFindIdx] at h
  | cons n rest ih =>
    intro j i e h
    by_cases hk : n.key = k
    · simp [bubbleFindIdx, hk] at h
      obtain ⟨-, he⟩ := h
      subst he
      exact ⟨List.mem_cons_self _ _, hk⟩
    · simp only [bubbleFindIdx, hk, if_false, if_neg hk] at h
      obtain ⟨hm, hke⟩ := ih h
      exact ⟨List.mem_cons_of_mem _ hm, hke⟩

theorem bubbleFindIdx_isSome {es : List (BubbleNode κ ν)} {n : BubbleNode κ ν}
    (hm : n ∈ es) (hk : n.key = k) : ∀ j, (bubbleFindIdx es k j).isSome = true := by
  induction es with
  | nil => cases hm
  | cons n0 rest ih =>
    intro j
    by_cases hk0 : n0.key = k
    · simp [bubbleFindIdx, hk0]
    · rcases List.mem_cons.mp hm with h0 | h0
      · subst h0; exact absurd hk hk0
      · simpa [bubbleFindIdx, hk0] using ih h0 (j + 1)

theorem priorityFindIdx_some {es : List (κ × ν)} {k : κ} :
    ∀ {j i v}, priorityFindIdx es k j = some (i, v) → (k, v) ∈ es := by
  induction es with
  | nil => intro j i v h; simp [priorityFindIdx] at h
  | cons p rest ih =>
    intro j i v h
    obtain ⟨k0, v0⟩ := p
    by_cases hk : k0 = k
    · simp [priorityFindIdx, hk] at h
      obtain ⟨-, he⟩ := h
      subst he
      subst hk
      exact List.mem_cons_self _ _
    · simp only [priorityFindIdx, hk, if_neg hk] at h
      exact List.mem_cons_of_mem _ (ih h)

theorem priorityFindIdx_isSome {es : List (κ × ν)} {k : κ} {v : ν}
    (hm : (k, v) ∈ es) : ∀ j, (priorityFindIdx es k j).isSome = true := by
  induction es with
  | nil => cases hm
  | cons p rest ih =>
    intro j
    obtain ⟨k0, v0⟩ := p
    by_cases hk : k0 = k
    · simp [priorityFindIdx, hk]
    · rcases List.mem_cons.mp hm with h0 | h0
      · cases h0; exact absurd rfl hk
      · simpa [priorityFindIdx, hk] using ih h0 (j + 1)

/-- A successful NoReorder lookup is one of the stored pairs. -/
theorem findNR_mem_all (c : Cache κ ν) (k : κ) (v : ν)
    (h : findNR c k = some v) : (k, v) ∈ c.all := by
  cases c with
  | mapCache es => exact assocFind_mem h
  | bubbleList es =>
    simp only [findNR, Cache.find, bubbleFind] at h
    cases hidx : bubbleFindIdx es k 0 with
    | none => rw [hidx] at h; cases h
    | some ie =>
      obtain ⟨i, e⟩ := ie
      rw [hidx] at h
      simp at h
      obtain ⟨hm, hk⟩ := bubbleFindIdx_some hidx
      simp only [Cache.all, List.mem_map]
      exact ⟨e, hm, by rw [hk, h]⟩
  | priorityList es =>
    simp only [findNR, Cache.find, priorityFind] at h
    cases hidx : priorityFindIdx es k 0 with
    | none => rw [hidx] at h; cases h
    | some iv =>
      obtain ⟨i, v0⟩ := iv
      rw [hidx] at h
      simp at h
      subst h
      exact priorityFindIdx_some hidx

/-- Every stored key is found by a NoReorder lookup. -/
theorem mem_all_findNR (c : Cache κ ν) (k : κ) (v : ν)
    (h : (k, v) ∈ c.all) : (findNR c k).isSome = true := by
  cases c with
  | mapCache es => exact assocFind_isSome h
  | bubbleList es =>
    simp only [Cache.all, List.mem_map] at h
    obtain ⟨n, hm, he⟩ := h
    simp only [findNR, Cache.find, bubbleFind]
    have := bubbleFindIdx_isSome hm (by rw [show n.key = k from congrArg Prod.fst he]) 0
    cases hidx : bubbleFindIdx es k 0 with
    | none => rw [hidx] at this; cases this
    | some ie => obtain ⟨i, e⟩ := ie; simp
  | priorityList es =>
    simp only [Cache.all] at h
    simp only [findNR, Cache.find, priorityFind]
    have := priorityFindIdx_isSome h 0
    cases hidx : priorityFindIdx es k 0 with
    | none => rw [hidx] at this; cases this
    | some iv => obtain ⟨i, v0⟩ := iv; simp

end FindAllBridges

/-- The signature of a found record is one of the registry's stored
signatures. -/
theorem findNR_sig_mem {lib : Cache GoType ObjectInfo} {p : GoType} {pinfo : ObjectInfo}
    (h : findNR lib p = some pinfo) : pinfo.ctorType ∈ recordSigs lib := by
  have hm := findNR_mem_all lib p pinfo h
  simp only [recordSigs, List.mem_toFinset, List.mem_map]
  exact ⟨(p, pinfo), hm, rfl⟩

/-- Parameters of a stored signature are registered whenever the registry
is fully registered. -/
theorem sig_params_registered {lib : Cache GoType ObjectInfo} (hreg : FullyRegistered lib)
    {σ : GoType} (hσ : σ ∈ recordSigs lib) :
    ∀ p ∈ σ.params, (findNR lib p).isSome = true := by
  simp only [recordSigs, List.mem_toFinset, List.mem_map] at hσ
  obtain ⟨kv, hkv, he⟩ := hσ
  intro p hp
  exact hreg kv hkv p (he ▸ hp)

theorem getLastD_concat (l : List α) (a d : α) : (l ++ [a]).getLastD d = a := by
  rw [List.getLastD_eq_getLast?, List.getLast?_concat]
  rfl

theorem head_append_of_ne_nil {l m : List α} (h : l ≠ []) :
    (l ++ m).head? = l.head? := by
  cases l with
  | nil => exact absurd rfl h
  | cons a rest => rfl

/-- The key cardinality step: pushing a fresh stored signature shrinks
the unexplored-signature set by exactly one. -/
theorem card_push {lib : Cache GoType ObjectInfo} {stack : List GoType} {τ : GoType}
    (hτ : τ ∈ recordSigs lib) (hnot : τ ∉ stack) :
    (recordSigs lib \ (stack ++ [τ]).toFinset).card + 1 =
      (recordSigs lib \ stack.toFinset).card := by
  have hset : recordSigs lib \ (stack ++ [τ]).toFinset =
      (recordSigs lib \ stack.toFinset).erase τ := by
    ext x
    simp only [List.toFinset_append, List.toFinset_cons, List.toFinset_nil, Finset.mem_sdiff,
      Finset.mem_union, Finset.mem_erase, List.mem_toFinset, Finset.mem_insert,
      Finset.not_mem_empty, or_false, insert_emptyc_eq, Finset.mem_singleton]
    tauto
  have hmem : τ ∈ recordSigs lib \ stack.toFinset :=
    Finset.mem_sdiff.mpr ⟨hτ, by simpa [List.mem_toFinset] using hnot⟩
  rw [hset, Finset.card_erase_of_mem hmem]
  exact Nat.succ_pred_eq_of_pos (Finset.card_pos.mpr ⟨τ, hmem⟩)

/-- On success verifyParams restores the stack it was given, and
verifyStack pops exactly its focus. -/
theorem verify_restore (inj : Injector) :
    ∀ fuel : Nat,
      (∀ stack st, verifyStack inj fuel stack = some (none, st) → st = stack.dropLast) ∧
      (∀ ps stack st, verifyParams inj (verifyStack inj fuel) ps stack = some (none, st) →
        st = stack) := by
  intro fuel
  induction fuel with
  | zero =>
    refine ⟨?_, ?_⟩
    · intro stack st h
      simp [verifyStack] at h
    · intro ps
      induction ps with
      | nil =>
        intro stack st h
        simp only [verifyParams, Option.some.injEq, Prod.mk.injEq] at h
        exact h.2.symm
      | cons p rest ih =>
        intro stack st h
        simp only [verifyParams] at h
        cases hf : findNR inj.library p with
        | none => rw [hf] at h; simp at h
        | some pinfo =>
          rw [hf] at h
          dsimp only at h
          by_cases hm : pinfo.ctorType ∈ stack
          · rw [if_pos hm] at h; simp at h
          · rw [if_neg hm] at h
            cases hvs : verifyStack inj 0 (stack ++ [pinfo.ctorType]) with
            | none => rw [hvs] at h; cases h
            | some pr => simp [verifyStack] at hvs
  | succ fuel ih =>
    obtain ⟨ihS, ihP⟩ := ih
    have hstack : ∀ stack st, verifyStack inj (fuel + 1) stack = some (none, st) →
        st = stack.dropLast := by
      intro stack st h
      simp only [verifyStack] at h
      cases hvp : verifyParams inj (verifyStack inj fuel)
          ((stack.getLastD (GoType.basic "")).params) stack with
      | none => rw [hvp] at h; cases h
      | some pr =>
        obtain ⟨re, st1⟩ := pr
        rw [hvp] at h
        cases re with
        | none =>
          simp only [Option.some.injEq, Prod.mk.injEq] at h
          rw [← h.2, ihP _ _ _ hvp]
        | some e => simp at h
    refine ⟨hstack, ?_⟩
    intro ps
    induction ps with
    | nil =>
      intro stack st h
      simp only [verifyParams, Option.some.injEq, Prod.mk.injEq] at h
      exact h.2.symm
    | cons p rest ihr =>
      intro stack st h
      simp only [verifyParams] at h
      cases hf : findNR inj.library p with
      | none => rw [hf] at h; simp at h
      | some pinfo =>
        rw [hf] at h
        dsimp only at h
        by_cases hm : pinfo.ctorType ∈ stack
        · rw [if_pos hm] at h; simp at h
        · rw [if_neg hm] at h
          cases hvs : verifyStack inj (fuel + 1) (stack ++ [pinfo.ctorType]) with
          | none => rw [hvs] at h; cases h
          | some pr =>
            obtain ⟨re, st1⟩ := pr
            rw [hvs] at h
            cases re with
            | some e => simp at h
            | none =>
              have h1 : st1 = stack := by
                have h2 := hstack _ _ hvs
                rwa [List.dropLast_concat] at h2
              rw [h1] at h
              exact ihr stack st h

/-- With fuel exceeding the number of unexplored registered signatures,
the verifier cannot run out of fuel. -/
theorem verify_suff (inj : Injector) :
    ∀ fuel : Nat,
      (∀ stack, (recordSigs inj.library \ stack.toFinset).card + 1 ≤ fuel →
        verifyStack inj fuel stack ≠ none) ∧
      (∀ ps stack, (recordSigs inj.library \ stack.toFinset).card ≤ fuel →
        verifyParams inj (verifyStack inj fuel) ps stack ≠ none) := by
  intro fuel
  induction fuel with
  | zero =>
    refine ⟨?_, ?_⟩
    · intro stack hc
      omega
    · intro ps
      induction ps with
      | nil => intro stack hc; simp [verifyParams]
      | cons p rest ih =>
        intro stack hc
        simp only [verifyParams]
        cases hf : findNR inj.library p with
        | none => simp
        | some pinfo =>
          by_cases hm : pinfo.ctorType ∈ stack
          · simp [hm]
          · exfalso
            have hτ : pinfo.ctorType ∈ recordSigs inj.library \ stack.toFinset :=
              Finset.mem_sdiff.mpr ⟨findNR_sig_mem hf, by simpa [List.mem_toFinset] using hm⟩
            have := Finset.card_pos.mpr ⟨pinfo.ctorType, hτ⟩
            omega
  | succ fuel ih =>
    obtain ⟨ihS, ihP⟩ := ih
    have hstack : ∀ stack, (recordSigs inj.library \ stack.toFinset).card + 1 ≤ fuel + 1 →
        verifyStack inj (fuel + 1) stack ≠ none := by
      intro stack hc
      simp only [verifyStack]
      cases hvp : verifyParams inj (verifyStack inj fuel)
          ((stack.getLastD (GoType.basic "")).params) stack with
      | none => exact absurd hvp (ihP _ _ (by omega))
      | some pr =>
        obtain ⟨re, st1⟩ := pr
        cases re <;> simp
    refine ⟨hstack, ?_⟩
    intro ps
    induction ps with
    | nil => intro stack hc; simp [verifyParams]
    | cons p rest ihr =>
      intro stack hc
      simp only [verifyParams]
      cases hf : findNR inj.library p with
      | none => simp
      | some pinfo =>
        by_cases hm : pinfo.ctorType ∈ stack
        · simp [hm]
        · simp only [if_neg hm]
          have hcard := card_push (findNR_sig_mem hf) hm
          cases hvs : verifyStack inj (fuel + 1) (stack ++ [pinfo.ctorType]) with
          | none => exact absurd hvs (hstack _ (by omega))
          | some pr =>
            obtain ⟨re, st1⟩ := pr
            cases re with
            | some e => simp
            | none =>
              have h1 : st1 = stack := by
                have h2 := (verify_restore inj (fuel + 1)).1 _ _ hvs
                rwa [List.dropLast_concat] at h2
              rw [h1]
              exact ihr stack hc

/-- When the registry is fully registered and the focus of the stack has
registered parameters, the only error the verifier can emit is the bare
DependencyLoop sentinel. -/
theorem verify_errkind (inj : Injector) (hreg : FullyRegistered inj.library) :
    ∀ fuel : Nat,
      (∀ stack e st,
        (∀ p ∈ (stack.getLastD (GoType.basic "")).params,
          (findNR inj.library p).isSome = true) →
        verifyStack inj fuel stack = some (some e, st) →
        e = .sentinel .dependencyLoop) ∧
      (∀ ps stack e st, (∀ p ∈ ps, (findNR inj.library p).isSome = true) →
        verifyParams inj (verifyStack inj fuel) ps stack = some (some e, st) →
        e = .sentinel .dependencyLoop) := by
  intro fuel
  induction fuel with
  | zero =>
    refine ⟨?_, ?_⟩
    · intro stack e st hp h
      simp [verifyStack] at h
    · intro ps
      induction ps with
      | nil =>
        intro stack e st hp h
        simp [verifyParams] at h
      | cons p rest ih =>
        intro stack e st hp h
        simp only [verifyParams] at h
        cases hf : findNR inj.library p with
        | none =>
          have := hp p (List.mem_cons_self _ _)
          rw [hf] at this
          cases this
        | some pinfo =>
          rw [hf] at h
          dsimp only at h
          by_cases hm : pinfo.ctorType ∈ stack
          · rw [if_pos hm] at h
            simp only [Option.some.injEq, Prod.mk.injEq] at h
            exact h.1.symm
          · rw [if_neg hm] at h
            cases hvs : verifyStack inj 0 (stack ++ [pinfo.ctorType]) with
            | none => rw [hvs] at h; cases h
            | some pr => simp [verifyStack] at hvs
  | succ fuel ih =>
    obtain ⟨ihS, ihP⟩ := ih
    have hstack : ∀ stack e st,
        (∀ p ∈ (stack.getLastD (GoType.basic "")).params,
          (findNR inj.library p).isSome = true) →
        verifyStack inj (fuel + 1) stack = some (some e, st) →
        e = .sentinel .dependencyLoop := by
      intro stack e st hp h
      simp only [verifyStack] at h
      cases hvp : verifyParams inj (verifyStack inj fuel)
          ((stack.getLastD (GoType.basic "")).params) stack with
      | none => rw [hvp] at h; cases h
      | some pr =>
        obtain ⟨re, st1⟩ := pr
        rw [hvp] at h
        cases re with
        | none => simp at h
        | some e0 =>
          simp only [Option.some.injEq, Prod.mk.injEq] at h
          rw [← h.1]
          exact ihP _ _ _ _ hp hvp
    refine ⟨hstack, ?_⟩
    intro ps
    induction ps with
    | nil =>
      intro stack e st hp h
      simp [verifyParams] at h
    | cons p rest ihr =>
      intro stack e st hp h
      simp only [verifyParams] at h
      cases hf : findNR inj.library p with
      | none =>
        have := hp p (List.mem_cons_self _ _)
        rw [hf] at this
        cases this
      | some pinfo =>
        rw [hf] at h
        dsimp only at h
        by_cases hm : pinfo.ctorType ∈ stack
        · rw [if_pos hm] at h
          simp only [Option.some.injEq, Prod.mk.injEq] at h
          exact h.1.symm
        · rw [if_neg hm] at h
          cases hvs : verifyStack inj (fuel + 1) (stack ++ [pinfo.ctorType]) with
          | none => rw [hvs] at h; cases h
          | some pr =>
            obtain ⟨re, st1⟩ := pr
            rw [hvs] at h
            cases re with
            | some e0 =>
              simp only [Option.some.injEq, Prod.mk.injEq] at h
              rw [← h.1]
              refine hstack _ _ _ ?_ hvs
              rw [getLastD_concat]
              exact sig_params_registered hreg (findNR_sig_mem hf)
            | none =>
              have h1 : st1 = stack := by
                have h2 := (verify_restore inj (fuel + 1)).1 _ _ hvs
                rwa [List.dropLast_concat] at h2
              rw [h1] at h
              exact ihr _ _ _ (fun q hq => hp q (List.mem_cons_of_mem _ hq)) h

/-- Any error emitted from a nonempty stack reports a nonempty stack with
the same first entry. -/
theorem verify_head (inj : Injector) :
    ∀ fuel : Nat,
      (∀ stack e st, stack ≠ [] →
        verifyStack inj fuel stack = some (some e, st) →
        st.head? = stack.head? ∧ st ≠ []) ∧
      (∀ ps stack e st, stack ≠ [] →
        verifyParams inj (verifyStack inj fuel) ps stack = some (some e, st) →
        st.head? = stack.head? ∧ st ≠ []) := by
  intro fuel
  induction fuel with
  | zero =>
    refine ⟨?_, ?_⟩
    · intro stack e st hne h
      simp [verifyStack] at h
    · intro ps
      induction ps with
      | nil =>
        intro stack e st hne h
        simp [verifyParams] at h
      | cons p rest ih =>
        intro stack e st hne h
        simp only [verifyParams] at h
        cases hf : findNR inj.library p with
        | none =>
          rw [hf] at h
          dsimp only at h
          simp only [Option.some.injEq, Prod.mk.injEq] at h
          rw [← h.2]
          exact ⟨rfl, hne⟩
        | some pinfo =>
          rw [hf] at h
          dsimp only at h
          by_cases hm : pinfo.ctorType ∈ stack
          · rw [if_pos hm] at h
            simp only [Option.some.injEq, Prod.mk.injEq] at h
            rw [← h.2]
            exact ⟨rfl, hne⟩
          · rw [if_neg hm] at h
            cases hvs : verifyStack inj 0 (stack ++ [pinfo.ctorType]) with
            | none => rw [hvs] at h; cases h
            | some pr => simp [verifyStack] at hvs
  | succ fuel ih =>
    obtain ⟨ihS, ihP⟩ := ih
    have hstack : ∀ stack e st, stack ≠ [] →
        verifyStack inj (fuel + 1) stack = some (some e, st) →
        st.head? = stack.head? ∧ st ≠ [] := by
      intro stack e st hne h
      simp only [verifyStack] at h
      cases hvp : verifyParams inj (verifyStack inj fuel)
          ((stack.getLastD (GoType.basic "")).params) stack with
      | none => rw [hvp] at h; cases h
      | some pr =>
        obtain ⟨re, st1⟩ := pr
        rw [hvp] at h
        cases re with
        | none => simp at h
        | some e0 =>
          simp only [Option.some.injEq, Prod.mk.injEq] at h
          rw [← h.2]
          exact ihP _ _ _ _ hne hvp
    refine ⟨hstack, ?_⟩
    intro ps
    induction ps with
    | nil =>
      intro stack e st hne h
      simp [verifyParams] at h
    | cons p rest ihr =>
      intro stack e st hne h
      simp only [verifyParams] at h
      cases hf : findNR inj.library p with
      | none =>
        rw [hf] at h
        dsimp only at h
        simp only [Option.some.injEq, Prod.mk.injEq] at h
        rw [← h.2]
        exact ⟨rfl, hne⟩
      | some pinfo =>
        rw [hf] at h
        dsimp only at h
        by_cases hm : pinfo.ctorType ∈ stack
        · rw [if_pos hm] at h
          simp only [Option.some.injEq, Prod.mk.injEq] at h
          rw [← h.2]
          exact ⟨rfl, hne⟩
        · rw [if_neg hm] at h
          cases hvs : verifyStack inj (fuel + 1) (stack ++ [pinfo.ctorType]) with
          | none => rw [hvs] at h; cases h
          | some pr =>
            obtain ⟨re, st1⟩ := pr
            rw [hvs] at h
            cases re with
            | some e0 =>
              simp only [Option.some.injEq, Prod.mk.injEq] at h
              rw [← h.2]
              have hap : stack ++ [pinfo.ctorType] ≠ [] := by
                simp
              obtain ⟨hh, hn⟩ := hstack _ _ _ hap hvs
              rw [hh, head_append_of_ne_nil hne]
              exact ⟨rfl, hn⟩
            | none =>
              have h1 : st1 = stack := by
                have h2 := (verify_restore inj (fuel + 1)).1 _ _ hvs
                rwa [List.dropLast_concat] at h2
              rw [h1] at h
              exact ihr _ _ _ hne h

/-- Inverting Bad at a known focus: some parameter of the focus either
hits the stack or pushes into a Bad extension. -/
theorem bad_inv {lib : Cache GoType ObjectInfo} {stack : List GoType} {σ : GoType}
    (hlast : stack.getLast? = some σ) (hbad : Bad lib stack) :
    ∃ p ∈ σ.params, ∃ pinfo, findNR lib p = some pinfo ∧
      (pinfo.ctorType ∈ stack ∨ Bad lib (stack ++ [pinfo.ctorType])) := by
  cases hbad with
  | hit h1 h2 h3 h4 =>
    rw [hlast] at h1
    injection h1 with he
    subst he
    exact ⟨_, h2, _, h3, Or.inl h4⟩
  | push h1 h2 h3 h4 h5 =>
    rw [hlast] at h1
    injection h1 with he
    subst he
    exact ⟨_, h2, _, h3, Or.inr h5⟩

/-- Soundness: from a stack ending in a stored signature from which no
repeat is reachable, the verifier succeeds and pops its focus. -/
theorem verify_sound (inj : Injector) (hreg : FullyRegistered inj.library) :
    ∀ fuel : Nat,
      (∀ stack σ, stack.getLast? = some σ → σ ∈ recordSigs inj.library →
        ¬ Bad inj.library stack →
        (recordSigs inj.library \ stack.toFinset).card + 1 ≤ fuel →
        verifyStack inj fuel stack = some (none, stack.dropLast)) ∧
      (∀ ps stack σ, stack.getLast? = some σ → σ ∈ recordSigs inj.library →
        (∀ p ∈ ps, p ∈ σ.params) →
        ¬ Bad inj.library stack →
        (recordSigs inj.library \ stack.toFinset).card ≤ fuel →
        verifyParams inj (verifyStack inj fuel) ps stack = some (none, stack)) := by
  intro fuel
  induction fuel with
  | zero =>
    refine ⟨?_, ?_⟩
    · intro stack σ hlast hσ hbad hc
      omega
    · intro ps
      induction ps with
      | nil => intro stack σ hlast hσ hsub hbad hc; simp [verifyParams]
      | cons p rest ihr =>
        intro stack σ hlast hσ hsub hbad hc
        have hps := sig_params_registered hreg hσ p (hsub p (List.mem_cons_self _ _))
        simp only [verifyParams]
        cases hf : findNR inj.library p with
        | none => rw [hf] at hps; cases hps
        | some pinfo =>
          dsimp only
          by_cases hm : pinfo.ctorType ∈ stack
          · exact absurd (Bad.hit hlast (hsub p (List.mem_cons_self _ _)) hf hm) hbad
          · exfalso
            have hτ : pinfo.ctorType ∈ recordSigs inj.library \ stack.toFinset :=
              Finset.mem_sdiff.mpr ⟨findNR_sig_mem hf, by simpa [List.mem_toFinset] using hm⟩
            have := Finset.card_pos.mpr ⟨pinfo.ctorType, hτ⟩
            omega
  | succ fuel ih =>
    obtain ⟨ihS, ihP⟩ := ih
    have hstack : ∀ stack σ, stack.getLast? = some σ → σ ∈ recordSigs inj.library →
        ¬ Bad inj.library stack →
        (recordSigs inj.library \ stack.toFinset).card + 1 ≤ fuel + 1 →
        verifyStack inj (fuel + 1) stack = some (none, stack.dropLast) := by
      intro stack σ hlast hσ hbad hc
      simp only [verifyStack]
      have hfoc : stack.getLastD (GoType.basic "") = σ := by
        rw [List.getLastD_eq_getLast?, hlast]
        rfl
      rw [hfoc]
      rw [ihP σ.params stack σ hlast hσ (fun p hp => hp) hbad (by omega)]
    refine ⟨hstack, ?_⟩
    intro ps
    induction ps with
    | nil => intro stack σ hlast hσ hsub hbad hc; simp [verifyParams]
    | cons p rest ihr =>
      intro stack σ hlast hσ hsub hbad hc
      have hps := sig_params_registered hreg hσ p (hsub p (List.mem_cons_self _ _))
      simp only [verifyParams]
      cases hf : findNR inj.library p with
      | none => rw [hf] at hps; cases hps
      | some pinfo =>
        dsimp only
        by_cases hm : pinfo.ctorType ∈ stack
        · exact absurd (Bad.hit hlast (hsub p (List.mem_cons_self _ _)) hf hm) hbad
        · rw [if_neg hm]
          have hcard := card_push (findNR_sig_mem hf) hm
          have hvs := hstack (stack ++ [pinfo.ctorType]) pinfo.ctorType
            (List.getLast?_concat _) (findNR_sig_mem hf)
            (fun hb => hbad (Bad.push hlast (hsub p (List.mem_cons_self _ _)) hf hm hb))
            (by omega)
          rw [List.dropLast_concat] at hvs
          rw [hvs]
          exact ihr stack σ hlast hσ (fun q hq => hsub q (List.mem_cons_of_mem _ hq)) hbad hc

/-- Completeness: a reachable repeat makes the verifier fail with the
bare DependencyLoop sentinel. -/
theorem verify_complete (inj : Injector) (hreg : FullyRegistered inj.library) :
    ∀ fuel : Nat,
      (∀ stack σ, stack.getLast? = some σ → σ ∈ recordSigs inj.library →
        Bad inj.library stack →
        (recordSigs inj.library \ stack.toFinset).card + 1 ≤ fuel →
        ∃ st, verifyStack inj fuel stack =
          some (some (.sentinel .dependencyLoop), st)) ∧
      (∀ ps stack σ, stack.getLast? = some σ → σ ∈ recordSigs inj.library →
        (∀ p ∈ ps, p ∈ σ.params) →
        (∃ p ∈ ps, ∃ pinfo, findNR inj.library p = some pinfo ∧
          (pinfo.ctorType ∈ stack ∨ Bad inj.library (stack ++ [pinfo.ctorType]))) →
        (recordSigs inj.library \ stack.toFinset).card ≤ fuel →
        ∃ st, verifyParams inj (verifyStack inj fuel) ps stack =
          some (some (.sentinel .dependencyLoop), st)) := by
  intro fuel
  induction fuel with
  | zero =>
    refine ⟨?_, ?_⟩
    · intro stack σ hlast hσ hbad hc
      omega
    · intro ps
      induction ps with
      | nil =>
        intro stack σ hlast hσ hsub hex hc
        obtain ⟨p, hp, -⟩ := hex
        cases hp
      | cons p rest ihr =>
        intro stack σ hlast hσ hsub hex hc
        have hps := sig_params_registered hreg hσ p (hsub p (List.mem_cons_self _ _))
        simp only [verifyParams]
        cases hf : findNR inj.library p with
        | none => rw [hf] at hps; cases hps
        | some pinfo =>
          dsimp only
          have hm : pinfo.ctorType ∈ stack := by
            have hτ := findNR_sig_mem hf
            have hemp : recordSigs inj.library \ stack.toFinset = ∅ :=
              Finset.card_eq_zero.mp (Nat.le_zero.mp hc)
            by_contra hm
            have : pinfo.ctorType ∈ recordSigs inj.library \ stack.toFinset :=
              Finset.mem_sdiff.mpr ⟨hτ, by simpa [List.mem_toFinset] using hm⟩
            rw [hemp] at this
            cases this
          rw [if_pos hm]
          exact ⟨stack, rfl⟩
  | succ fuel ih =>
    obtain ⟨ihS, ihP⟩ := ih
    have hstack : ∀ stack σ, stack.getLast? = some σ → σ ∈ recordSigs inj.library →
        Bad inj.library stack →
        (recordSigs inj.library \ stack.toFinset).card + 1 ≤ fuel + 1 →
        ∃ st, verifyStack inj (fuel + 1) stack =
          some (some (.sentinel .dependencyLoop), st) := by
      intro stack σ hlast hσ hbad hc
      simp only [verifyStack]
      have hfoc : stack.getLastD (GoType.basic "") = σ := by
        rw [List.getLastD_eq_getLast?, hlast]
        rfl
      rw [hfoc]
      obtain ⟨st, hvp⟩ := ihP σ.params stack σ hlast hσ (fun p hp => hp)
        (bad_inv hlast hbad) (by omega)
      rw [hvp]
      exact ⟨st, rfl⟩
    refine ⟨hstack, ?_⟩
    intro ps
    induction ps with
    | nil =>
      intro stack σ hlast hσ hsub hex hc
      obtain ⟨p, hp, -⟩ := hex
      cases hp
    | cons p rest ihr =>
      intro stack σ hlast hσ hsub hex hc
      have hps := sig_params_registered hreg hσ p (hsub p (List.mem_cons_self _ _))
      simp only [verifyParams]
      cases hf : findNR inj.library p with
      | none => rw [hf] at hps; cases hps
      | some pinfo =>
        dsimp only
        by_cases hm : pinfo.ctorType ∈ stack
        · rw [if_pos hm]
          exact ⟨stack, rfl⟩
        · rw [if_neg hm]
          have hcard := card_push (findNR_sig_mem hf) hm
          cases hvs : verifyStack inj (fuel + 1) (stack ++ [pinfo.ctorType]) with
          | none => exact absurd hvs ((verify_suff inj (fuel + 1)).1 _ (by omega))
          | some pr =>
            obtain ⟨re, st1⟩ := pr
            cases re with
            | some e0 =>
              have he0 : e0 = .sentinel .dependencyLoop := by
                refine (verify_errkind inj hreg (fuel + 1)).1 _ _ _ ?_ hvs
                rw [getLastD_concat]
                exact sig_params_registered hreg (findNR_sig_mem hf)
              subst he0
              exact ⟨st1, rfl⟩
            | none =>
              have h1 : st1 = stack := by
                have h2 := (verify_restore inj (fuel + 1)).1 _ _ hvs
                rwa [List.dropLast_concat] at h2
              rw [h1]
              obtain ⟨p0, hp0, pinfo0, hf0, hdisj⟩ := hex
              rcases List.mem_cons.mp hp0 with hp0h | hp0t
              · subst hp0h
                rw [hf] at hf0
                injection hf0 with hif
                subst hif
                rcases hdisj with hmem | hbadx
                · exact absurd hmem hm
                · exfalso
                  obtain ⟨st2, hvs2⟩ := hstack (stack ++ [pinfo.ctorType]) pinfo.ctorType
                    (List.getLast?_concat _) (findNR_sig_mem hf) hbadx (by omega)
                  rw [hvs] at hvs2
                  simp at hvs2
              · exact ihr stack σ hlast hσ
                  (fun q hq => hsub q (List.mem_cons_of_mem _ hq))
                  ⟨p0, hp0t, pinfo0, hf0, hdisj⟩ hc

/-- One root key verifies cleanly when its signature reaches no repeat. -/
theorem verifyKey_ok (inj : Injector) (fuel : Nat) (k : GoType) (info : ObjectInfo)
    (hreg : FullyRegistered inj.library)
    (hf : findNR inj.library k = some info)
    (hnb : ¬ Bad inj.library [info.ctorType])
    (hfuel : (recordSigs inj.library).card + 1 ≤ fuel) :
    verifyKey inj k fuel = some (.ret none) := by
  simp only [verifyKey]
  rw [hf]
  dsimp only
  have hb : (recordSigs inj.library \ [info.ctorType].toFinset).card + 1 ≤ fuel := by
    have hle := Finset.card_le_card
      (Finset.sdiff_subset (s := recordSigs inj.library) (t := [info.ctorType].toFinset))
    omega
  have hvs := (verify_sound inj hreg fuel).1 [info.ctorType] info.ctorType (by simp)
    (findNR_sig_mem hf) hnb hb
  rw [hvs]

/-- One root key either verifies cleanly or reports a chain-wrapped
DependencyLoop whose trace starts at its own signature. -/
theorem verifyKey_shape (inj : Injector) (fuel : Nat) (k : GoType) (info : ObjectInfo)
    (hreg : FullyRegistered inj.library)
    (hf : findNR inj.library k = some info)
    (hfuel : (recordSigs inj.library).card + 1 ≤ fuel) :
    verifyKey inj k fuel = some (.ret none) ∨
    ∃ chain, verifyKey inj k fuel =
        some (.ret (some (.chain (.sentinel .dependencyLoop) chain))) ∧
      chain.head? = some info.ctorType ∧ chain ≠ [] := by
  simp only [verifyKey]
  rw [hf]
  dsimp only
  have hb : (recordSigs inj.library \ [info.ctorType].toFinset).card + 1 ≤ fuel := by
    have hle := Finset.card_le_card
      (Finset.sdiff_subset (s := recordSigs inj.library) (t := [info.ctorType].toFinset))
    omega
  cases hvs : verifyStack inj fuel [info.ctorType] with
  | none => exact absurd hvs ((verify_suff inj fuel).1 _ hb)
  | some pr =>
    obtain ⟨re, st⟩ := pr
    cases re with
    | none => left; rfl
    | some e =>
      right
      have he : e = .sentinel .dependencyLoop := by
        refine (verify_errkind inj hreg fuel).1 _ _ _ ?_ hvs
        intro p hp
        refine sig_params_registered hreg (findNR_sig_mem hf) p ?_
        simpa using hp
      subst he
      have hh := (verify_head inj fuel).1 _ _ _ (by simp) hvs
      exact ⟨st, rfl, by simpa using hh.1, hh.2⟩

/-- A root whose signature reaches a repeat never verifies cleanly. -/
theorem verifyKey_fails (inj : Injector) (fuel : Nat) (k : GoType) (info : ObjectInfo)
    (hreg : FullyRegistered inj.library)
    (hf : findNR inj.library k = some info)
    (hb : Bad inj.library [info.ctorType])
    (hfuel : (recordSigs inj.library).card + 1 ≤ fuel) :
    verifyKey inj k fuel ≠ some (.ret none) := by
  simp only [verifyKey]
  rw [hf]
  dsimp only
  have hc : (recordSigs inj.library \ [info.ctorType].toFinset).card + 1 ≤ fuel := by
    have hle := Finset.card_le_card
      (Finset.sdiff_subset (s := recordSigs inj.library) (t := [info.ctorType].toFinset))
    omega
  obtain ⟨st, hvs⟩ := (verify_complete inj hreg fuel).1 [info.ctorType] info.ctorType
    (by simp) (findNR_sig_mem hf) hb hc
  rw [hvs]
  simp

/-- Iterating verifyAll over roots that all verify cleanly marks the
injector verified, provided the strategy does not deadlock the loop. -/
theorem verifyAll_ok (inj : Injector) (fuel : Nat)
    (hnl : inj.library.findLocksDuringAll = false) :
    ∀ keys : List GoType,
      (∀ k ∈ keys, verifyKey inj k fuel = some (.ret none)) →
      verifyAll inj keys fuel = some (.ret none, { inj with verified := true }) := by
  intro keys
  induction keys with
  | nil => intro h; rfl
  | cons k rest ih =>
    intro h
    simp only [verifyAll, hnl, Bool.false_eq_true, if_false]
    rw [h k (List.mem_cons_self _ _)]
    exact ih (fun q hq => h q (List.mem_cons_of_mem _ hq))

/-- Iterating verifyAll when every root is clean-or-loop and at least one
root is not clean: the first failing root's chain error is returned and
stored, provided the strategy does not deadlock the loop. -/
theorem verifyAll_loop (inj : Injector) (fuel : Nat)
    (hnl : inj.library.findLocksDuringAll = false) :
    ∀ keys : List GoType,
      (∀ k ∈ keys, verifyKey inj k fuel = some (.ret none) ∨
        ∃ info chain, findNR inj.library k = some info ∧
          verifyKey inj k fuel =
            some (.ret (some (.chain (.sentinel .dependencyLoop) chain))) ∧
          chain.head? = some info.ctorType ∧ chain ≠ []) →
      (∃ k ∈ keys, verifyKey inj k fuel ≠ some (.ret none)) →
      ∃ root info chain, findNR inj.library root = some info ∧
        verifyAll inj keys fuel =
          some (.ret (some (.chain (.sentinel .dependencyLoop) chain)),
            { inj with
                verificationError := some (.chain (.sentinel .dependencyLoop) chain) }) ∧
        chain.head? = some info.ctorType ∧ chain ≠ [] := by
  intro keys
  induction keys with
  | nil =>
    intro hgood hex
    obtain ⟨k, hk, -⟩ := hex
    cases hk
  | cons k rest ih =>
    intro hgood hex
    rcases hgood k (List.mem_cons_self _ _) with hok | ⟨info, chain, hfk, hkey, hhd, hne⟩
    · have hrec : ∃ k0 ∈ rest, verifyKey inj k0 fuel ≠ some (.ret none) := by
        obtain ⟨k0, hk0, hbadk⟩ := hex
        rcases List.mem_cons.mp hk0 with he | ht
        · subst he; exact absurd hok hbadk
        · exact ⟨k0, ht, hbadk⟩
      obtain ⟨root, info, chain, hfr, hva, hhd, hne⟩ :=
        ih (fun q hq => hgood q (List.mem_cons_of_mem _ hq)) hrec
      refine ⟨root, info, chain, hfr, ?_, hhd, hne⟩
      simp only [verifyAll, hnl, Bool.false_eq_true, if_false]
      rw [hok]
      exact hva
    · refine ⟨k, info, chain, hfk, ?_, hhd, hne⟩
      simp only [verifyAll, hnl, Bool.false_eq_true, if_false]
      rw [hkey]

/-- C3: the claim fails for the priority-list strategy and holds for the
other two.  (a) On every injector whose library is the priority list —
whose All iterator holds the non-reentrant mutex that the Find inside
Verify's loop body also locks — Verify diverges for every fuel as soon
as the key list is nonempty (New always self-registers *Injector, so
this covers every reachable priority-list injector).  (b) On every
injector whose strategy does not nest Find inside a held lock (Map and
BubbleList), with a fully registered acyclic registry and enough fuel,
Verify returns nil, marks the injector verified, and clears the stored
verification error. -/
theorem c3_verify_strategy_dependent :
    (∀ (inj : Injector) (fuel : Nat),
      inj.library.findLocksDuringAll = true →
      (inj.library.all).map Prod.fst ≠ [] →
      Verify inj fuel = none) ∧
    (∀ (inj : Injector) (fuel : Nat),
      inj.library.findLocksDuringAll = false →
      FullyRegistered inj.library →
      (∀ kv ∈ inj.library.all, ¬ Bad inj.library [kv.2.ctorType]) →
      (recordSigs inj.library).card + 1 ≤ fuel →
      Verify inj fuel =
        some (.ret none, { inj with verified := true, verificationError := none })) := by
  constructor
  · intro inj fuel hlock hne
    show verifyAll { inj with verified := false, verificationError := none }
      ((inj.library.all).map Prod.fst) fuel = none
    cases hks : (inj.library.all).map Prod.fst with
    | nil => exact absurd hks hne
    | cons k rest => simp [verifyAll, hlock]
  · intro inj fuel hnl hreg hacyc hfuel
    simp only [Verify]
    have hk : ∀ k ∈ (inj.library.all).map Prod.fst,
        verifyKey { inj with verified := false, verificationError := none } k fuel =
          some (.ret none) := by
      intro k hkm
      obtain ⟨kv, hkv, hfst⟩ := List.mem_map.mp hkm
      obtain ⟨k0, v0⟩ := kv
      dsimp only at hfst
      subst hfst
      have hiss := mem_all_findNR inj.library k0 v0 hkv
      obtain ⟨info, hfi⟩ := Option.isSome_iff_exists.mp hiss
      exact verifyKey_ok _ fuel k0 info hreg hfi
        (hacyc (k0, info) (findNR_mem_all inj.library k0 info hfi)) hfuel
    exact verifyAll_ok { inj with verified := false, verificationError := none }
      fuel hnl _ hk

/-- C4 (amended): over a fully registered registry backed by a strategy
that does not deadlock Verify's loop (Map or BubbleList; the priority
list self-deadlocks in Verify before reporting anything, see C3), in
which some registered root's signature reaches a repeat, Verify fails
with the DependencyLoop sentinel wrapped in a chain error whose nonempty
trace starts at the failing root's own constructor signature, and the
error is stored on the injector. -/
theorem c4_amended (inj : Injector) (fuel : Nat)
    (hnl : inj.library.findLocksDuringAll = false)
    (hreg : FullyRegistered inj.library)
    (hbad : ∃ k info, findNR inj.library k = some info ∧
      Bad inj.library [info.ctorType])
    (hfuel : (recordSigs inj.library).card + 1 ≤ fuel) :
    ∃ root info chain, findNR inj.library root = some info ∧
      Verify inj fuel =
        some (.ret (some (.chain (.sentinel .dependencyLoop) chain)),
          { inj with
              verified := false,
              verificationError := some (.chain (.sentinel .dependencyLoop) chain) }) ∧
      chain.head? = some info.ctorType ∧ chain ≠ [] := by
  simp only [Verify]
  have hgood : ∀ k ∈ (inj.library.all).map Prod.fst,
      verifyKey { inj with verified := false, verificationError := none } k fuel =
          some (.ret none) ∨
        ∃ info chain, findNR inj.library k = some info ∧
          verifyKey { inj with verified := false, verificationError := none } k fuel =
            some (.ret (some (.chain (.sentinel .dependencyLoop) chain))) ∧
          chain.head? = some info.ctorType ∧ chain ≠ [] := by
    intro k hkm
    obtain ⟨kv, hkv, hfst⟩ := List.mem_map.mp hkm
    obtain ⟨k0, v0⟩ := kv
    dsimp only at hfst
    subst hfst
    have hiss := mem_all_findNR inj.library k0 v0 hkv
    obtain ⟨info, hfi⟩ := Option.isSome_iff_exists.mp hiss
    rcases verifyKey_shape { inj with verified := false, verificationError := none }
        fuel k0 info hreg hfi hfuel with hok | ⟨chain, h1, h2, h3⟩
    · exact Or.inl hok
    · exact Or.inr ⟨info, chain, hfi, h1, h2, h3⟩
  have hex : ∃ k ∈ (inj.library.all).map Prod.fst,
      verifyKey { inj with verified := false, verificationError := none } k fuel ≠
        some (.ret none) := by
    obtain ⟨k0, info0, hf0, hb0⟩ := hbad
    exact ⟨k0,
      List.mem_map.mpr ⟨(k0, info0), findNR_mem_all inj.library k0 info0 hf0, rfl⟩,
      verifyKey_fails _ fuel k0 info0 hreg hf0 hb0 hfuel⟩
  obtain ⟨root, info, chain, h1, h2, h3, h4⟩ :=
    verifyAll_loop { inj with verified := false, verificationError := none }
      fuel hnl _ hgood hex
  exact ⟨root, info, chain, h1, h2, h3, h4⟩

/-- The key and parameter types for the C3 and C4 registries. -/
def c4U : GoType := .structT "injector_test.U" []

def c4K : GoType := .structT "injector_test.K" []

/-- A registry whose only user key K has constructor func(U, K) K with U
left unregistered: K's parameter types reach K's own signature — exactly
the premise of the claim — yet verification dies on U first. -/
def c4cex : Injector :=
  (registerTransient (New .Map) c4K (.funcT [c4U, c4K] [c4K] false)).2

/-- The error Verify actually returns on c4cex. -/
def c4cexErr : GoErr :=
  .chain (.wrapped .notRegistered [c4U]) [.funcT [c4U, c4K] [c4K] false]

/-- C4 counterexample: the registry c4cex satisfies the claim's premise —
the registered root K's constructor parameter types reach a signature
already on the depth-first path (K's own signature) — but Verify returns
a chain-wrapped NotRegistered error for the unregistered parameter U,
which does not wrap DependencyLoop: verifyStack checks each parameter for
presence before the loop probe, so an unregistered parameter preempts the
promised DependencyLoop. -/
theorem c4_counterexample :
    (∃ info, findNR c4cex.library c4K = some info ∧
      Bad c4cex.library [info.ctorType]) ∧
    Verify c4cex 8 =
      some (.ret (some c4cexErr),
        { c4cex with verified := false, verificationError := some c4cexErr }) ∧
    c4cexErr.wraps .dependencyLoop = false := by
  refine ⟨⟨{ ctorType := .funcT [c4U, c4K] [c4K] false, lifecycle := .transient },
    by decide, ?_⟩, by decide, by decide⟩
  have h1 : ([(.funcT [c4U, c4K] [c4K] false : GoType)]).getLast? =
      some (.funcT [c4U, c4K] [c4K] false) := by decide
  have h2 : c4K ∈ (GoType.funcT [c4U, c4K] [c4K] false).params := by decide
  have h3 : findNR c4cex.library c4K =
      some { ctorType := .funcT [c4U, c4K] [c4K] false, lifecycle := .transient } := by
    decide
  have h4 : (GoType.funcT [c4U, c4K] [c4K] false) ∈
      [(.funcT [c4U, c4K] [c4K] false : GoType)] := by decide
  exact Bad.hit h1 h2 h3 h4

/-- A stack whose focus has no constructor parameters reaches nothing. -/
theorem not_bad_of_focus_no_params {lib : Cache GoType ObjectInfo} {stack : List GoType}
    {σ : GoType} (hlast : stack.getLast? = some σ) (hp : σ.params = []) :
    ¬ Bad lib stack := by
  intro hb
  obtain ⟨p, hpm, -⟩ := bad_inv hlast hb
  rw [hp] at hpm
  cases hpm

/-- A fully registered acyclic registry: K constructs from the
self-registered *Injector. -/
def c3w : Injector :=
  (registerTransient (New .Map) c4K (.funcT [injectorKey] [c4K] false)).2

theorem c3_verify_strategy_dependent_witness :
    Verify (New .PriorityList) 5 = none ∧
    Verify c3w 4 =
      some (.ret none, { c3w with verified := true, verificationError := none }) := by
  refine ⟨c3_verify_strategy_dependent.1 (New .PriorityList) 5 (by decide) (by decide),
    c3_verify_strategy_dependent.2 c3w 4 (by decide)
      (by unfold FullyRegistered; decide) ?_ (by decide)⟩
  intro kv hkv
  have hall : c3w.library.all =
      [(injectorKey, { ctorType := .funcT [] [injectorKey] false, lifecycle := .singleton }),
        (c4K, { ctorType := .funcT [injectorKey] [c4K] false, lifecycle := .transient })] := by
    decide
  rw [hall] at hkv
  rcases List.mem_cons.mp hkv with he | ht
  · subst he
    exact not_bad_of_focus_no_params (σ := .funcT [] [injectorKey] false)
      (by decide) (by decide)
  · rcases List.mem_cons.mp ht with he2 | h0
    · subst he2
      intro hb
      obtain ⟨p, hpm, pinfo, hf, hdisj⟩ :=
        bad_inv (σ := .funcT [injectorKey] [c4K] false) (by decide) hb
      have hpi : p = injectorKey := by simpa [GoType.params] using hpm
      subst hpi
      rw [show findNR c3w.library injectorKey =
          some { ctorType := .funcT [] [injectorKey] false, lifecycle := .singleton } from
        by decide] at hf
      injection hf with hf2
      subst hf2
      rcases hdisj with hmem | hbad2
      · exact absurd hmem (by decide)
      · exact not_bad_of_focus_no_params (σ := .funcT [] [injectorKey] false)
          (by decide) (by decide) hbad2
    · cases h0

/-- A fully registered registry whose user key K constructs from K
itself: a direct self-loop. -/
def c4w : Injector :=
  (registerTransient (New .Map) c4K (.funcT [c4K] [c4K] false)).2

theorem c4_amended_witness :
    ∃ root info chain, findNR c4w.library root = some info ∧
      Verify c4w 4 =
        some (.ret (some (.chain (.sentinel .dependencyLoop) chain)),
          { c4w with
              verified := false,
              verificationError := some (.chain (.sentinel .dependencyLoop) chain) }) ∧
      chain.head? = some info.ctorType ∧ chain ≠ [] := by
  refine c4_amended c4w 4 (by decide) (by unfold FullyRegistered; decide) ?_ (by decide)
  refine ⟨c4K, { ctorType := .funcT [c4K] [c4K] false, lifecycle := .transient },
    by decide, ?_⟩
  have h1 : ([(.funcT [c4K] [c4K] false : GoType)]).getLast? =
      some (.funcT [c4K] [c4K] false) := by decide
  have h2 : c4K ∈ (GoType.funcT [c4K] [c4K] false).params := by decide
  have h3 : findNR c4w.library c4K =
      some { ctorType := .funcT [c4K] [c4K] false, lifecycle := .transient } := by decide
  have h4 : (GoType.funcT [c4K] [c4K] false) ∈
      [(.funcT [c4K] [c4K] false : GoType)] := by decide
  exact Bad.hit h1 h2 h3 h4
